import Mathlib

/-!
Verification of the gravix-dashboards ingest → rollup data path.

Shallow embedding of the Go sources:
* `services/ingestion/main.go` — rate limiter, HTTP handler pipeline,
  durable sink upload, batch endpoint;
* `schemas/service_event.go` — ServiceEvent property validation;
* `pkg/storage` (s3.go) — retry with backoff;
* `pkg/storage` (local.go) — key sanitization for the local backend;
* `transforms/request_metrics_minute` (object-store variant) and
  `transforms/service_events_daily` — rollup engine: lock acquisition,
  per-day aggregation, output swap.

Go byte strings are modelled as `List Nat` where individual bytes matter,
and as Lean `String` where only whole-string comparisons matter.
Machine integers are modelled as `Int` (no value in scope approaches 2^63,
so wraparound never fires) and `float64` values as `ℚ` (all arithmetic the
code performs on them here is exact in the rationals).
-/

namespace Gravix

/-! ## Rate limiter (services/ingestion/main.go, `RateLimiter`) -/

/-- Token-bucket rate limiter: the single token counter together with the
configuration (`rate` tokens added per second, `maxTokens` burst capacity). -/
structure RateLimiter where
  tokens : Int
  rate : Int
  maxTokens : Int
deriving DecidableEq, Repr

/-- Constructor: `NewRateLimiter` stores `burst` into the token counter. -/
def RateLimiter.new (ratePerSecond burst : Int) : RateLimiter :=
  { tokens := burst, rate := ratePerSecond, maxTokens := burst }

/-- One iteration of the 1-second `refill` loop: add `rate` tokens,
capping at `maxTokens`. -/
def RateLimiter.refillStep (rl : RateLimiter) : RateLimiter :=
  let newTokens := rl.tokens + rl.rate
  { rl with tokens := if newTokens > rl.maxTokens then rl.maxTokens else newTokens }

/-- `Allow`: return `false` if the counter is ≤ 0, otherwise decrement it and
return `true` (the successful compare-and-swap path of the Go loop). -/
def RateLimiter.allow (rl : RateLimiter) : RateLimiter × Bool :=
  if rl.tokens ≤ 0 then (rl, false)
  else ({ rl with tokens := rl.tokens - 1 }, true)

/-! ## ServiceEvent property validation (schemas/service_event.go, `Validate`) -/

/-- Limit `MAX_PROP_VALUE_LEN` from `Validate`. -/
def MAX_PROP_VALUE_LEN : Nat := 1024

/-- Mirrors the nested-JSON heuristic on a property value `v` (bytes):
`(len(v) > 2 && v[0] == 123 && v[len(v)-1] == 125) || (len(v) > 2 && v[0] == 91 && v[len(v)-1] == 93)`
(123 125 91 93 are the bytes of the two brace pairs). -/
def looksLikeNestedJSON (v : List Nat) : Bool :=
  (decide (v.length > 2) && (v.headD 0 == 123) && (v.getLastD 0 == 125)) ||
  (decide (v.length > 2) && (v.headD 0 == 91) && (v.getLastD 0 == 93))

/-- The per-value body of the properties loop in `Validate`: a value passes
iff it is at most `MAX_PROP_VALUE_LEN` bytes and does not look like nested
JSON. -/
def validatePropValue (v : List Nat) : Bool :=
  decide (v.length ≤ MAX_PROP_VALUE_LEN) && !looksLikeNestedJSON v

/-- The properties segment of `ServiceEvent.Validate`: `true` iff no value of
the map fails the per-value check (the Go loop returns the first error it
meets; map iteration order only affects which error message is produced). -/
def validateProperties (props : List (String × List Nat)) : Bool :=
  props.all fun kv => validatePropValue kv.2

/-! ## S3 retry with backoff (pkg/storage s3.go, `retryWithBackoff`) -/

/-- Constant `maxRetries` from the storage package. -/
def maxRetries : Nat := 3

/-- Constant `baseRetryDelay`, in milliseconds. -/
def baseRetryDelay : ℚ := 500

/-- Environment a run of `retryWithBackoff` interacts with:
the outcome of each attempt of `fn` (`none` = success, `some e` = error),
whether `ctx.Err() != nil` was observed right after a given attempt,
whether `ctx.Done()` fires during the back-off sleep after a given attempt,
and the `rand.Float64()` draw used for the jitter of that sleep. -/
structure RetryEnv (E : Type) where
  attemptResult : Nat → Option E
  cancelledAfterAttempt : Nat → Bool
  cancelledDuringSleep : Nat → Bool
  jitterU : Nat → ℚ

/-- Back-off sleep scheduled after failed attempt `attempt`:
`delay = baseRetryDelay * 2^attempt`, then `jitter = delay * (0.5 + rand.Float64())`. -/
def sleepDelay {E : Type} (env : RetryEnv E) (attempt : Nat) : ℚ :=
  (baseRetryDelay * 2 ^ attempt) * (1/2 + env.jitterU attempt)

/-- Recursive body of the `for attempt := 0; attempt <= maxRetries; attempt++`
loop. `fuel` counts the remaining admitted attempts; `lastErr` threads the
Go `lastErr` variable. Returns the final result (`none` = fn succeeded,
`some e` = the error returned), the number of `fn` invocations made, and the
completed back-off sleeps in order. -/
def retryAux {E : Type} (env : RetryEnv E) (lastErr : Option E) :
    Nat → Nat → Option E × Nat × List ℚ
  | 0, _ => (lastErr, 0, [])
  | fuel + 1, attempt =>
    match env.attemptResult attempt with
    | none => (none, 1, [])
    | some e =>
      if env.cancelledAfterAttempt attempt then (some e, 1, [])
      else if attempt < maxRetries then
        if env.cancelledDuringSleep attempt then (some e, 1, [])
        else
          let d := sleepDelay env attempt
          let r := retryAux env (some e) fuel (attempt + 1)
          (r.1, r.2.1 + 1, d :: r.2.2)
      else
        let r := retryAux env (some e) fuel (attempt + 1)
        (r.1, r.2.1 + 1, r.2.2)

/-- `retryWithBackoff`: run the loop from attempt 0 with `maxRetries + 1`
admitted attempts. -/
def retryWithBackoff {E : Type} (env : RetryEnv E) : Option E × Nat × List ℚ :=
  retryAux env none (maxRetries + 1) 0

/-! ## Durable sink upload (services/ingestion/main.go, `uploadFile`) -/

/-- World the upload interacts with: local batch files (path → bytes) and the
object store contents (key → bytes). -/
structure SinkWorld where
  localFiles : List (String × List Nat)
  store : List (String × List Nat)
deriving DecidableEq, Repr

/-- Association-list lookup (first match wins). -/
def lookupKey (k : String) : List (String × List Nat) → Option (List Nat)
  | [] => none
  | (k2, v) :: rest => if k2 = k then some v else lookupKey k rest

/-- Replace-semantics put into a keyed blob list. -/
def storePut (st : List (String × List Nat)) (key : String) (data : List Nat) :
    List (String × List Nat) :=
  (key, data) :: st.filter (fun kv => kv.1 ≠ key)

/-- filepath.Base on Unix: strip trailing slashes, then keep the part after
the last remaining slash (empty path gives `.`, all-slashes gives `/`). -/
def baseName (p : String) : String :=
  let cs := p.toList
  let stripped := cs.reverse.dropWhile (· = '/')
  if cs.isEmpty then "."
  else if stripped.isEmpty then "/"
  else String.mk ((stripped.takeWhile (· ≠ '/')).reverse)

/-- `uploadFile topic sourcePath dayStr hourStr`: derive the destination key
`raw/<topic>/<day>/<hour>/<basename>` (day and hour strings are the
formatting of the upload wall-clock instant `t`), stream the local batch to
`store.Put`, and only if the put succeeded remove the local file.
`putFails` abstracts the object store rejecting the put after its internal
retries; `removeFails` abstracts `os.Remove` failing (the code only logs a
warning then). If the source file cannot be opened, return unchanged. -/
def uploadFile (w : SinkWorld) (topic sourcePath dayStr hourStr : String)
    (putFails removeFails : Bool) : SinkWorld :=
  match lookupKey sourcePath w.localFiles with
  | none => w
  | some data =>
    let destKey := "raw/" ++ topic ++ "/" ++ dayStr ++ "/" ++ hourStr ++ "/" ++ baseName sourcePath
    if putFails then w
    else
      { localFiles :=
          if removeFails then w.localFiles
          else w.localFiles.filter (fun kv => kv.1 ≠ sourcePath),
        store := storePut w.store destKey data }

/-- Destination key used by `uploadFile` (exposed for the theorems). -/
def uploadDestKey (topic sourcePath dayStr hourStr : String) : String :=
  "raw/" ++ topic ++ "/" ++ dayStr ++ "/" ++ hourStr ++ "/" ++ baseName sourcePath

/-! ## Batch facts endpoint (services/ingestion/main.go, `handleBatchFacts`) -/

/-- `splitJSONL`: split a body on the newline byte (10), keeping only
non-empty lines; a trailing line without newline is kept. -/
def splitJSONL (data : List Nat) : List (List Nat) :=
  let rec go (cur : List Nat) : List Nat → List (List Nat)
    | [] => if cur.isEmpty then [] else [cur.reverse]
    | b :: rest =>
      if b = 10 then
        if cur.isEmpty then go [] rest else cur.reverse :: go [] rest
      else go (b :: cur) rest
  go [] data

/-- Response of the batch handler: HTTP status, the `accepted`/`rejected`
counts (present only on the 200 path), and the sink buffer after the
request (records appended by successful `sink.Write` calls). -/
structure BatchResult where
  status : Nat
  accepted : Option Nat
  rejected : Option Nat
  buffer : List (List Nat)
deriving DecidableEq, Repr

/-- Loop body of `handleBatchFacts` over the split lines. `parse` models
`schemas.ParseRequestFact` followed by the protojson re-marshal: `none`
covers a parse/validation/marshal failure (an error line), `some cleanData`
the canonical bytes handed to the sink. `writeOk k` tells whether the k-th
`sink.Write` call of this request succeeds; a failing write appends nothing
durable and makes the handler return 500 immediately with no counts. -/
def batchLoop (parse : List Nat → Option (List Nat)) (writeOk : Nat → Bool)
    (buffer : List (List Nat)) (acceptedN rejectedN writeIdx : Nat) :
    List (List Nat) → BatchResult
  | [] =>
    { status := 200, accepted := some acceptedN, rejected := some rejectedN,
      buffer := buffer }
  | line :: rest =>
    if line.isEmpty then
      batchLoop parse writeOk buffer acceptedN rejectedN writeIdx rest
    else
      match parse line with
      | none => batchLoop parse writeOk buffer acceptedN (rejectedN + 1) writeIdx rest
      | some cleanData =>
        if writeOk writeIdx then
          batchLoop parse writeOk (buffer ++ [cleanData]) (acceptedN + 1) rejectedN
            (writeIdx + 1) rest
        else
          { status := 500, accepted := none, rejected := none, buffer := buffer }

/-- `handleBatchFacts` after method/content-type/size checks: split the body,
reject an empty body with 400, else run the accept loop from the current
sink buffer. -/
def handleBatchBody (parse : List Nat → Option (List Nat)) (writeOk : Nat → Bool)
    (buffer : List (List Nat)) (body : List Nat) : BatchResult :=
  let lines := splitJSONL body
  if lines.isEmpty then
    { status := 400, accepted := none, rejected := none, buffer := buffer }
  else
    batchLoop parse writeOk buffer 0 0 0 lines

/-! ## HTTP handler pipeline (services/ingestion/main.go)

`main` registers each ingest endpoint as
`rateLimitMiddleware(rl, authMiddleware(apiKey, handler(sink)))`, so the
rate limiter runs first, then authentication, and only then the per-handler
checks (method, Content-Type, body size, parse, sink write). -/

/-- Constant `maxBodyBytes = 1 << 20`. -/
def maxBodyBytes : Nat := 1 <<< 20

/-- An incoming HTTP request, as far as the pipeline inspects it.
`contentType` and `xApiKey` are `""` when the header is absent (Go
`Header.Get`). `parsesTo` models the schema parse + protojson re-marshal of
the body: `none` = `ParseRequestFact`/`ParseServiceEvent` (or the marshal)
fails, `some cleanData` = the canonical record bytes. -/
structure HttpRequest where
  method : String
  contentType : String
  xApiKey : String
  body : List Nat
  parsesTo : Option (List Nat)

/-- Substring test on strings, as Go `strings.Contains`. -/
def strContains (s pat : String) : Bool :=
  decide (pat.toList <:+: s.toList)

/-- `requireJSON`: the Content-Type header must be non-empty and contain
`application/json`. -/
def requireJSON (ct : String) : Bool :=
  !(ct = "") && strContains ct "application/json"

/-- `authMiddleware` predicate: pass when no key is configured, or when the
`X-API-Key` header equals the configured key (`subtle.ConstantTimeCompare`
returns 1 exactly on byte equality; the timing aspect has no observable
counterpart in this embedding). -/
def authOK (apiKey reqKey : String) : Bool :=
  apiKey = "" || reqKey = apiKey

/-- Body of `handleFacts` / `handleEvents` (they differ only in the schema
parser and topic, both abstracted by `req.parsesTo`): method check (405),
Content-Type (415), `MaxBytesReader` + `ReadAll` (413 when the body exceeds
`maxBodyBytes`), parse (400), sink write (500), else 201. Returns the HTTP
status and the sink buffer after the request. -/
def handleSingleRecord (sinkWriteOk : Bool) (buffer : List (List Nat))
    (req : HttpRequest) : Nat × List (List Nat) :=
  if req.method ≠ "POST" then (405, buffer)
  else if !requireJSON req.contentType then (415, buffer)
  else if req.body.length > maxBodyBytes then (413, buffer)
  else
    match req.parsesTo with
    | none => (400, buffer)
    | some cleanData =>
      if sinkWriteOk then (201, buffer ++ [cleanData]) else (500, buffer)

/-- Body of `handleBatchFacts` behind the middleware: method, Content-Type,
size, then `handleBatchBody`. -/
def handleBatchRecord (parse : List Nat → Option (List Nat)) (writeOk : Nat → Bool)
    (buffer : List (List Nat)) (req : HttpRequest) : Nat × List (List Nat) :=
  if req.method ≠ "POST" then (405, buffer)
  else if !requireJSON req.contentType then (415, buffer)
  else if req.body.length > maxBodyBytes then (413, buffer)
  else
    let r := handleBatchBody parse writeOk buffer req.body
    (r.status, r.buffer)

/-- Full pipeline of `/api/v1/facts` and `/api/v1/events`:
`rateLimitMiddleware` (429 without consuming handler work), then
`authMiddleware` (401), then the handler body. Returns the rate limiter
state, the status, and the sink buffer. -/
def singleRecordPipeline (rl : RateLimiter) (apiKey : String) (sinkWriteOk : Bool)
    (buffer : List (List Nat)) (req : HttpRequest) :
    RateLimiter × Nat × List (List Nat) :=
  let a := rl.allow
  if !a.2 then (a.1, 429, buffer)
  else if !authOK apiKey req.xApiKey then (a.1, 401, buffer)
  else
    let r := handleSingleRecord sinkWriteOk buffer req
    (a.1, r.1, r.2)

/-- Full pipeline of `/api/v1/facts/batch`. -/
def batchPipeline (rl : RateLimiter) (apiKey : String)
    (parse : List Nat → Option (List Nat)) (writeOk : Nat → Bool)
    (buffer : List (List Nat)) (req : HttpRequest) :
    RateLimiter × Nat × List (List Nat) :=
  let a := rl.allow
  if !a.2 then (a.1, 429, buffer)
  else if !authOK apiKey req.xApiKey then (a.1, 401, buffer)
  else
    let r := handleBatchRecord parse writeOk buffer req
    (a.1, r.1, r.2)

/-! ## Rollup exclusive-writer lock

`transforms/request_metrics_minute` (object-store variant): `acquireLock`
with `isLockStale` stale-owner detection and one retry.
`transforms/service_events_daily`: `acquireLock` with no stale detection. -/

/-- State the lock acquisition interacts with: the contents of the lock file
(`none` = the file does not exist) and liveness of pids on this host
(`proc.Signal(0)` succeeds exactly on the live ones; on Unix
`os.FindProcess` itself never fails). -/
structure LockWorld where
  lockContents : Option String
  alive : Int → Bool

/-- The whitespace characters Go treats as field separators that can occur
in a lock file. -/
def isSpaceChar (c : Char) : Bool :=
  c = ' ' ∨ c = '\n' ∨ c = '\t' ∨ c = '\r'

/-- Splitter for `strings.Fields`: whitespace runs separate fields, empties
are dropped. -/
def fieldsAux (cur : List Char) : List Char → List (List Char)
  | [] => if cur.isEmpty then [] else [cur.reverse]
  | c :: rest =>
    if isSpaceChar c then
      if cur.isEmpty then fieldsAux [] rest else cur.reverse :: fieldsAux [] rest
    else fieldsAux (c :: cur) rest

/-- Go `strings.Fields`. -/
def goFields (s : String) : List String :=
  (fieldsAux [] s.toList).map String.mk

/-- Go `strings.TrimSpace`. -/
def goTrim (s : String) : String :=
  String.mk (((s.toList.dropWhile isSpaceChar).reverse.dropWhile isSpaceChar).reverse)

/-- Digit-string value (None on empty or any non-digit character). -/
def digitsValAux (acc : Nat) : List Char → Option Nat
  | [] => some acc
  | c :: rest => if c.isDigit then digitsValAux (acc * 10 + (c.toNat - 48)) rest else none

/-- Digit-string value of a character list. -/
def digitsVal (cs : List Char) : Option Nat :=
  if cs.isEmpty then none else digitsValAux 0 cs

/-- Go `strconv.Atoi` (success cases: optional sign followed by digits). -/
def goAtoi (s : String) : Option Int :=
  match s.toList with
  | '-' :: rest => (digitsVal rest).map fun n => -(n : Int)
  | '+' :: rest => (digitsVal rest).map fun n => (n : Int)
  | cs => (digitsVal cs).map fun n => (n : Int)

/-- Go `strings.TrimPrefix`. -/
def trimPre (s pat : String) : String :=
  if pat.toList <+: s.toList then String.mk (s.toList.drop pat.toList.length) else s

/-- `isLockStale` of the metrics rollup: read the file (unreadable → stale),
trim, take the first whitespace-separated field, strip `pid=`, `Atoi`
(unparsable → stale), then the lock is stale iff the pid is not alive. -/
def isLockStale (contents : Option String) (alive : Int → Bool) : Bool :=
  match contents with
  | none => true
  | some data =>
    match goFields (goTrim data) with
    | [] => true
    | p :: _ =>
      match goAtoi (trimPre p "pid=") with
      | none => true
      | some pid => !alive pid

/-- Lock file line written by a fresh owner: `pid=<n> started=<rfc3339>\n`. -/
def lockLine (selfPid : Int) (started : String) : String :=
  "pid=" ++ toString selfPid ++ " started=" ++ started ++ "\n"

/-- `acquireLock` of the metrics rollup: exclusive create; on conflict, if the
existing lock is stale remove it and retry the exclusive create exactly once
(in this single-actor model the retry succeeds), else fail with the
"already running" error. Returns the world afterwards and `none` on success
or `some errMsg` on failure. -/
def acquireLockMetrics (w : LockWorld) (selfPid : Int) (started : String) :
    LockWorld × Option String :=
  match w.lockContents with
  | none => ({ w with lockContents := some (lockLine selfPid started) }, none)
  | some _ =>
    if isLockStale w.lockContents w.alive then
      ({ w with lockContents := some (lockLine selfPid started) }, none)
    else
      (w, some "rollup already running (lock file exists)")

/-- `acquireLock` of the events rollup: exclusive create; any conflict fails
with the "already running" error — there is no stale-owner check. -/
def acquireLockEvents (w : LockWorld) (selfPid : Int) (started : String) :
    LockWorld × Option String :=
  match w.lockContents with
  | none => ({ w with lockContents := some (lockLine selfPid started) }, none)
  | some _ => (w, some "event rollup already running (lock file exists)")

/-! ## Local object store key sanitization (pkg/storage local.go)

Unix `path/filepath` lexical operations, modelled on `List Char`:
`filepath.Clean` is the classic stack algorithm over slash-separated
components, `filepath.Join(a, b) = Clean(a + "/" + b)` for non-empty
arguments. -/

/-- Split a character list on the slash character (components may be empty,
e.g. for a leading, trailing or doubled slash). -/
def splitSlash (s : List Char) : List (List Char) :=
  match s with
  | [] => [[]]
  | c :: rest =>
    match splitSlash rest with
    | [] => [[]]
    | comp :: comps =>
      if c = '/' then [] :: comp :: comps
      else (c :: comp) :: comps

/-- One step of the `Clean` stack algorithm: skip empty and `.` components;
on `..` pop a poppable component (at the root a `..` is simply dropped,
outside the root an unpoppable `..` is kept); otherwise push. -/
def cleanStep (rooted : Bool) (acc : List (List Char)) (p : List Char) :
    List (List Char) :=
  if p = [] ∨ p = ['.'] then acc
  else if p = ['.', '.'] then
    if acc ≠ [] ∧ acc.getLast? ≠ some ['.', '.'] then acc.dropLast
    else if rooted then acc
    else acc ++ [['.', '.']]
  else acc ++ [p]

/-- Component stack produced by `Clean`. -/
def cleanParts (rooted : Bool) (parts : List (List Char)) : List (List Char) :=
  parts.foldl (cleanStep rooted) []

/-- Go `strings.Join(parts, "/")` on character lists. -/
def joinSlash : List (List Char) → List Char
  | [] => []
  | [p] => p
  | p :: rest => p ++ '/' :: joinSlash rest

/-- `filepath.Clean` on Unix: empty path cleans to `.`; otherwise run the
stack algorithm over the slash components and re-join, restoring the root
slash (an empty rooted stack is the root itself, an empty relative stack
is `.`). -/
def cleanPath (path : List Char) : List Char :=
  if path = [] then ['.']
  else
    let rooted := decide (path.head? = some '/')
    let out := cleanParts rooted (splitSlash path)
    if rooted then '/' :: joinSlash out
    else if out = [] then ['.']
    else joinSlash out

/-- `filepath.Join(a, b)` for non-empty `a`, `b`. -/
def joinPath (a b : List Char) : List Char :=
  cleanPath (a ++ '/' :: b)

/-- Go `strings.Contains(s, "..")`. -/
def containsDotDot (s : List Char) : Bool :=
  decide (['.', '.'] <:+: s)

/-- `LocalStore.sanitizeKey`: clean the key, reject a cleaned key containing
`..` (validation error), join onto the base directory, reject a result of
which the base directory is not a string prefix (validation error), else
return the resolved absolute path. -/
def sanitizeKey (baseDir key : List Char) : Except String (List Char) :=
  let cleaned := cleanPath key
  if containsDotDot cleaned then
    Except.error "path traversal not allowed"
  else
    let full := joinPath baseDir cleaned
    if !decide (baseDir <+: full) then
      Except.error "resolves outside base directory"
    else
      Except.ok full

/-- The filesystem path a `LocalStore` operation touches: every one of
`Put`, `Get`, `Delete`, `Exists` and `List` first runs `sanitizeKey` on its
key (or prefix) and returns the validation error without any filesystem
access when it fails; on success the operation acts on the returned path
(and, for `Put`, its parent directories) only. -/
def localStoreTarget (baseDir key : List Char) : Except String (List Char) :=
  sanitizeKey baseDir key

/-! ## Per-minute metrics rollup (transforms/request_metrics_minute, object-store variant, `processDay`)

`event_time` is modelled as seconds since the Unix epoch (`Nat`); the code's
`eventTime.UTC().Format("2006-01-02")` equality test against `dayStr` is day
number equality, `Truncate(time.Minute)` is flooring to a minute boundary,
and the lexicographic order the code uses on formatted `bucket_start`
strings coincides with the numeric order of the underlying instants
(the format is fixed-width, zero padded). `latency_ms` values are carried
into `float64` latency vectors, modelled as `ℚ`. -/

/-- A parsed and validated request fact, as `processDay` consumes it. -/
structure RequestFact where
  eventId : String
  eventTime : Nat
  service : String
  method : String
  pathTemplate : String
  statusCode : Int
  latencyMs : Int
deriving DecidableEq, Repr

/-- UTC day number of an instant. -/
def dayOf (t : Nat) : Nat := t / 86400

/-- Minute bucket (`Truncate(time.Minute)`). -/
def bucketOf (t : Nat) : Nat := t / 60 * 60

/-- Aggregation key `(floor_minute(event_time), service, method, path_template)`. -/
structure AggregationKey where
  bucketStart : Nat
  service : String
  method : String
  pathTemplate : String
deriving DecidableEq, Repr

/-- Per-group accumulator: latency vector, request count, error count. -/
structure Aggregator where
  latencies : List ℚ
  requests : Int
  errors : Int
deriving DecidableEq, Repr

/-- Aggregation key of a fact. -/
def keyOf (f : RequestFact) : AggregationKey :=
  { bucketStart := bucketOf f.eventTime, service := f.service,
    method := f.method, pathTemplate := f.pathTemplate }

/-- Fold one fact into a group: `agg.Requests++`, `agg.Errors++` when
`status_code >= 500`, append `float64(latency_ms)` to the vector. -/
def bumpAgg (agg : Aggregator) (f : RequestFact) : Aggregator :=
  { latencies := agg.latencies ++ [(f.latencyMs : ℚ)],
    requests := agg.requests + 1,
    errors := agg.errors + (if f.statusCode ≥ 500 then 1 else 0) }

/-- The `aggs` map, modelled as an association list in first-insertion
order: a fact updates its group in place, a fresh key is appended. -/
def addFact : List (AggregationKey × Aggregator) → RequestFact →
    List (AggregationKey × Aggregator)
  | [], f => [(keyOf f, bumpAgg ⟨[], 0, 0⟩ f)]
  | (k, a) :: rest, f =>
    if k = keyOf f then (k, bumpAgg a f) :: rest
    else (k, a) :: addFact rest f

/-- Scan state of one `processDay` run: the `seen` dedup set (ids in
insertion order) and the `aggs` map. -/
structure DayState where
  seen : List String
  aggs : List (AggregationKey × Aggregator)

/-- Per-fact body of the scan loop: dedup on `event_id` first (a duplicate is
skipped before anything else — in particular an out-of-day first occurrence
still claims the id), then the strict day-boundary filter, then aggregation. -/
def processFact (dayNum : Nat) (st : DayState) (f : RequestFact) : DayState :=
  if f.eventId ∈ st.seen then st
  else
    let st2 : DayState := { st with seen := f.eventId :: st.seen }
    if dayOf f.eventTime ≠ dayNum then st2
    else { st2 with aggs := addFact st2.aggs f }

/-- Per-line body of the scan loop: an empty line or a line
`schemas.ParseRequestFact` rejects is skipped with a warning (`none`),
a parsed fact is processed. -/
def processLine (dayNum : Nat) (st : DayState) (line : Option RequestFact) : DayState :=
  match line with
  | none => st
  | some f => processFact dayNum st f

/-- montanaflynn/stats `Percentile` (as the code calls it: `percent` is 50,
95 or 99). Empty input or out-of-range percent yield the error value
(`none`, the caller ignores the error and uses the accompanying NaN —
unreachable here since every group holds at least one latency). A single
sample is returned directly; otherwise sort a copy ascending, let
`index = percent/100 * len`; a whole `index` selects `c[index-1]`, else
the mean of `c[⌊index⌋-1]` and `c[⌊index⌋]`. -/
def percentileGo (input : List ℚ) (percent : ℚ) : Option ℚ :=
  if input.length = 0 then none
  else if input.length = 1 then some (input.headD 0)
  else if percent ≤ 0 ∨ percent > 100 then none
  else
    let c := input.insertionSort (· ≤ ·)
    let index : ℚ := percent / 100 * input.length
    if index.den = 1 then
      some (c.getD (index.num.toNat - 1) 0)
    else if index > 1 then
      let i := index.floor.toNat
      some ((c.getD (i - 1) 0 + c.getD i 0) / 2)
    else none

/-- One finalized output row. -/
structure MetricRow where
  bucketStart : Nat
  service : String
  method : String
  pathTemplate : String
  requestCount : Int
  errorCount : Int
  errorRate : ℚ
  p50 : ℚ
  p95 : ℚ
  p99 : ℚ
  eventDay : Nat
deriving DecidableEq, Repr

/-- Finalize one group: percentiles over the latency vector, and
`error_rate = errors/requests` (0 when the count is 0). -/
def rowOf (dayNum : Nat) (k : AggregationKey) (agg : Aggregator) : MetricRow :=
  { bucketStart := k.bucketStart, service := k.service, method := k.method,
    pathTemplate := k.pathTemplate,
    requestCount := agg.requests, errorCount := agg.errors,
    errorRate := if agg.requests > 0 then (agg.errors : ℚ) / (agg.requests : ℚ) else 0,
    p50 := (percentileGo agg.latencies 50).getD 0,
    p95 := (percentileGo agg.latencies 95).getD 0,
    p99 := (percentileGo agg.latencies 99).getD 0,
    eventDay := dayNum }

/-- The `sort.Slice` comparator: by `bucket_start`, ties by `service`
(rows agreeing on both compare `false` both ways). -/
def rowLess (a b : MetricRow) : Prop :=
  if a.bucketStart = b.bucketStart then a.service < b.service
  else a.bucketStart < b.bucketStart

instance : DecidableRel rowLess := fun a b => by
  unfold rowLess; infer_instance

/-- Row list produced by one `processDay` run for the target day, from the
day's input blobs in the order `store.List` enumerated them (each blob a
list of scan lines). The final `sort.Slice` is modelled by an insertion
sort with the code's comparator; on rows tied under the comparator the Go
sort fixes no order either, the insertion sort realizes one admissible
outcome (for the sizes in the concrete statements below it is bit-exact:
Go's sort runs plain insertion sort on short slices). -/
def processDayRows (dayNum : Nat) (blobs : List (List (Option RequestFact))) :
    List MetricRow :=
  let st := blobs.flatten.foldl (processLine dayNum) ⟨[], []⟩
  let rows := st.aggs.map fun ka => rowOf dayNum ka.1 ka.2
  rows.insertionSort (fun a b => rowLess a b)

/-! ## Rollup output swap (object-store interaction of `processDay`)

Metrics variant (transforms/request_metrics_minute, object-store variant):
put the new blob first, then list the warehouse and delete every key
containing the day other than the new one; a failed put aborts with an
error before any delete. With no rows, just clear the day's keys.

Events variant (transforms/service_events_daily `processDay`): list the
warehouse and delete every key containing the day FIRST, then (if there are
rows) put the new blob; a failed put aborts after the deletes already
happened. -/

/-- Go `strings.HasPrefix(s, pre)`. -/
def strHasPre (s pre : String) : Bool :=
  decide (pre.toList <+: s.toList)

/-- Delete from the store every key that `store.List pre` returns (its key
begins with the listed prefix), whose name contains `dayStr`, and that is
not the excluded new key. -/
def deleteMatching (st : List (String × List Nat)) (pre dayStr : String)
    (excl : Option String) : List (String × List Nat) :=
  st.filter fun kv =>
    !(strHasPre kv.1 pre && strContains kv.1 dayStr && decide (some kv.1 ≠ excl))

/-- Warehouse key of the new metrics blob. -/
def metricsDestKey (outPre idx dayStr : String) : String :=
  outPre ++ "/metrics_" ++ idx ++ "_" ++ dayStr ++ ".parquet"

/-- Store interaction of the metrics `processDay` after aggregation:
`hasRows` is `len(aggs) != 0`, `blob` the encoded parquet bytes, `putOk`
whether `store.Put` succeeds. Returns the store afterwards and whether the
run succeeded (`false` propagates as a non-zero exit). -/
def outputSwapMetrics (st : List (String × List Nat)) (outPre idx dayStr : String)
    (blob : List Nat) (putOk hasRows : Bool) : List (String × List Nat) × Bool :=
  if !hasRows then (deleteMatching st outPre dayStr none, true)
  else
    let destKey := metricsDestKey outPre idx dayStr
    if !putOk then (st, false)
    else (deleteMatching (storePut st destKey blob) outPre dayStr (some destKey), true)

/-- Warehouse key of the new events blob. -/
def eventsDestKey (outPre idx dayStr : String) : String :=
  outPre ++ "/events_" ++ idx ++ "_" ++ dayStr ++ ".parquet"

/-- Store interaction of the events `processDay` after aggregation: the
clearing of the day's previous keys happens before the emptiness check and
before the put of the new blob. -/
def outputSwapEvents (st : List (String × List Nat)) (outPre idx dayStr : String)
    (blob : List Nat) (putOk hasRows : Bool) : List (String × List Nat) × Bool :=
  let st1 := deleteMatching st outPre dayStr none
  if !hasRows then (st1, true)
  else if !putOk then (st1, false)
  else (storePut st1 (eventsDestKey outPre idx dayStr) blob, true)

/-! ## Support definitions used by the statements and proofs below -/

/-- Lines of a batch body the loop actually parses: `splitJSONL` output with
the loop's own empty-line skip and the parse applied. -/
def parsedLines (parse : List Nat → Option (List Nat)) (lines : List (List Nat)) :
    List (List Nat) :=
  lines.filterMap fun l => if l.isEmpty then none else parse l

/-- Clean component stack of a rooted path (empty for the root itself). -/
def absParts (s : List Char) : List (List Char) :=
  cleanParts true (splitSlash s)

/-- Strict containment of one absolute path inside another, component-wise. -/
def strictlyWithinBase (base p : List Char) : Prop :=
  absParts base <+: absParts p ∧ absParts p ≠ absParts base

/-- First-occurrence deduplication by a key function, with an accumulator of
already-claimed keys (the shape of the rollup's `seen` map). -/
def dedupByAux {α β : Type} [DecidableEq β] (key : α → β) (seen : List β) :
    List α → List α
  | [] => []
  | a :: l =>
    if key a ∈ seen then dedupByAux key seen l
    else a :: dedupByAux key (key a :: seen) l

/-- First-occurrence deduplication by a key function. -/
def dedupBy {α β : Type} [DecidableEq β] (key : α → β) (l : List α) : List α :=
  dedupByAux key [] l

/-- The strict day-boundary filter of the scan loop. -/
def filterDay (dayNum : Nat) (l : List RequestFact) : List RequestFact :=
  l.filter fun f => decide (dayOf f.eventTime = dayNum)

/-- Facts of a list falling in one aggregation group. -/
def groupFacts (fl : List RequestFact) (k : AggregationKey) : List RequestFact :=
  fl.filter fun f => decide (keyOf f = k)

/-- The aggregate a group ends up with, described directly from the fact
list: latency vector in list order, request count, count of status ≥ 500. -/
def aggValue (fl : List RequestFact) (k : AggregationKey) : Aggregator :=
  { latencies := (groupFacts fl k).map fun f => (f.latencyMs : ℚ),
    requests := ((groupFacts fl k).length : Int),
    errors := (((groupFacts fl k).filter fun f => decide (f.statusCode ≥ 500)).length : Int) }

/-! ## Theorems -/

/-- C10: the rate limiter token count stays within `[0, burst]`: the
constructor stores `burst`; `Allow` leaves the count in range, returns
`false` without touching anything when the count is ≤ 0, and decrements
exactly when the count is positive; a refill step adds `rate` capped at
the burst maximum and stays in range (for the configured non-negative
rate). Neither operation changes the burst capacity. -/
theorem C10_token_count_in_range (r b : Int) (rl : RateLimiter)
    (hb : 0 ≤ b) (hlo : 0 ≤ rl.tokens) (hhi : rl.tokens ≤ rl.maxTokens)
    (hrate : 0 ≤ rl.rate) :
    ((RateLimiter.new r b).tokens = b ∧ (RateLimiter.new r b).maxTokens = b ∧
      0 ≤ (RateLimiter.new r b).tokens)
  ∧ (0 ≤ rl.allow.1.tokens ∧ rl.allow.1.tokens ≤ rl.allow.1.maxTokens)
  ∧ (rl.tokens ≤ 0 → rl.allow = (rl, false))
  ∧ (0 < rl.tokens → rl.allow.1.tokens = rl.tokens - 1 ∧ rl.allow.2 = true)
  ∧ (0 ≤ rl.refillStep.tokens ∧ rl.refillStep.tokens ≤ rl.refillStep.maxTokens)
  ∧ (rl.maxTokens < rl.tokens + rl.rate → rl.refillStep.tokens = rl.maxTokens)
  ∧ (rl.tokens + rl.rate ≤ rl.maxTokens → rl.refillStep.tokens = rl.tokens + rl.rate)
  ∧ rl.allow.1.maxTokens = rl.maxTokens ∧ rl.refillStep.maxTokens = rl.maxTokens := by
  unfold RateLimiter.new RateLimiter.allow RateLimiter.refillStep
  repeat' apply And.intro
  all_goals first
    | rfl
    | exact hb
    | (intro h; split <;> simp_all <;> omega)
    | (split <;> simp_all <;> omega)
    | (intro h; dsimp only []; split <;> simp_all <;> omega)
    | (dsimp only []; split <;> simp_all <;> omega)

/-- C10 witness: the invariant applied to the limiter of `main`
(`NewRateLimiter(100, 200)`) at a mid-range state. -/
theorem C10_witness :
    (RateLimiter.new 100 200).tokens = 200
  ∧ (RateLimiter.mk 7 100 200).allow.1.tokens = 6
  ∧ (RateLimiter.mk 7 100 200).refillStep.tokens = 107 := by
  refine ⟨(C10_token_count_in_range 100 200 ⟨7, 100, 200⟩ (by decide) (by decide)
    (by decide) (by decide)).1.1, ?_, ?_⟩
  · exact ((C10_token_count_in_range 100 200 ⟨7, 100, 200⟩ (by decide) (by decide)
      (by decide) (by decide)).2.2.2.1 (by decide)).1
  · exact (C10_token_count_in_range 100 200 ⟨7, 100, 200⟩ (by decide) (by decide)
      (by decide) (by decide)).2.2.2.2.2.2.1 (by decide)

/-- C6 counterexample: the two-byte value `"\x7b\x7d"` (bytes 123, 125)
begins with the opening brace byte and ends with the closing brace byte,
yet the properties check accepts it — the code requires `len(v) > 2`, so
the claim "rejects every properties value that begins with the opening and
ends with the closing brace" is false. -/
theorem C6_counterexample :
    ([123, 125] : List Nat).headD 0 = 123 ∧ ([123, 125] : List Nat).getLastD 0 = 125 ∧
    validatePropValue [123, 125] = true ∧
    validateProperties [("k", [123, 125])] = true := by
  decide

/-- C6 (amended): the properties check rejects every value longer than 1024
bytes; it rejects every value of length at least 3 that begins with the
opening and ends with the closing brace byte (curly or square); a value of
exactly 1024 bytes not of either shape passes; the two-byte values of that
shape (123 125 and 91 93 themselves) pass. A failing value makes the whole
properties map fail. -/
theorem C6_properties_value_rules (v : List Nat) :
    (1024 < v.length → validatePropValue v = false)
  ∧ (2 < v.length → v.length ≤ 1024 → v.headD 0 = 123 → v.getLastD 0 = 125 →
      validatePropValue v = false)
  ∧ (2 < v.length → v.length ≤ 1024 → v.headD 0 = 91 → v.getLastD 0 = 93 →
      validatePropValue v = false)
  ∧ (v.length = 1024 → ¬(v.headD 0 = 123 ∧ v.getLastD 0 = 125) →
      ¬(v.headD 0 = 91 ∧ v.getLastD 0 = 93) → validatePropValue v = true)
  ∧ (∀ props : List (String × List Nat), ∀ kv ∈ props, kv.2 = v →
      validatePropValue v = false → validateProperties props = false) := by
  refine ⟨?_, ?_, ?_, ?_, ?_⟩
  · intro h
    have hd : (decide (v.length ≤ MAX_PROP_VALUE_LEN)) = false := by
      apply decide_eq_false
      simp only [MAX_PROP_VALUE_LEN]
      omega
    simp [validatePropValue, hd]
  · intro h1 h2 h3 h4
    have hd : (decide (v.length > 2)) = true := decide_eq_true h1
    have hA : looksLikeNestedJSON v = true := by
      simp only [looksLikeNestedJSON, hd, h3, h4]
      rfl
    simp [validatePropValue, hA]
  · intro h1 h2 h3 h4
    have hd : (decide (v.length > 2)) = true := decide_eq_true h1
    have hA : looksLikeNestedJSON v = true := by
      simp only [looksLikeNestedJSON, hd, h3, h4]
      rfl
    simp [validatePropValue, hA]
  · intro h1 h2 h3
    have hlen : (decide (v.length ≤ MAX_PROP_VALUE_LEN)) = true := by
      apply decide_eq_true
      simp only [MAX_PROP_VALUE_LEN]
      omega
    have hA : looksLikeNestedJSON v = false := by
      cases hval : looksLikeNestedJSON v
      · rfl
      · exfalso
        simp only [looksLikeNestedJSON, Bool.or_eq_true, Bool.and_eq_true,
          decide_eq_true_eq, beq_iff_eq] at hval
        rcases hval with ⟨⟨_, ha⟩, hb⟩ | ⟨⟨_, ha⟩, hb⟩
        · exact h2 ⟨ha, hb⟩
        · exact h3 ⟨ha, hb⟩
    simp [validatePropValue, hlen, hA]
  · intro props kv hmem hkv hfail
    have : ∃ x ∈ props, ¬(validatePropValue x.2 = true) := by
      refine ⟨kv, hmem, ?_⟩
      rw [hkv, hfail]
      simp
    simp only [validateProperties]
    rw [List.all_eq_false]
    simpa using this

set_option maxRecDepth 40000 in
/-- C6 witness: a 1025-byte value is rejected, a three-byte curly-braced and
a three-byte square-bracketed value are rejected, a 1024-byte plain value is
accepted, and a map holding the oversize value fails as a whole. -/
theorem C6_witness :
    validatePropValue (List.replicate 1025 97) = false
  ∧ validatePropValue [123, 97, 125] = false
  ∧ validatePropValue [91, 97, 93] = false
  ∧ validatePropValue (List.replicate 1024 97) = true
  ∧ validateProperties [("big", List.replicate 1025 97)] = false := by
  refine ⟨(C6_properties_value_rules (List.replicate 1025 97)).1 (by decide),
    (C6_properties_value_rules [123, 97, 125]).2.1 (by decide) (by decide) (by decide)
      (by decide),
    (C6_properties_value_rules [91, 97, 93]).2.2.1 (by decide) (by decide) (by decide)
      (by decide),
    (C6_properties_value_rules (List.replicate 1024 97)).2.2.2.1 (by decide) (by decide)
      (by decide),
    (C6_properties_value_rules (List.replicate 1025 97)).2.2.2.2
      [("big", List.replicate 1025 97)] ("big", List.replicate 1025 97)
      (List.mem_singleton_self _) rfl
      ((C6_properties_value_rules (List.replicate 1025 97)).1 (by decide))⟩

/-- Helper: the loop makes at most `fuel` invocations of `fn`. -/
theorem retryAux_attempts_le {E : Type} (env : RetryEnv E) :
    ∀ fuel lastErr attempt, (retryAux env lastErr fuel attempt).2.1 ≤ fuel := by
  intro fuel
  induction fuel with
  | zero => intro le a; simp [retryAux]
  | succ n ih =>
    intro le a
    simp only [retryAux]
    split
    · simp
    · rename_i e he
      split
      · simp
      · split
        · split
          · simp
          · have := ih (some e) (a + 1)
            simp only []
            omega
        · have := ih (some e) (a + 1)
          simp only []
          omega

/-- Helper: from attempt `maxRetries` on, no back-off sleep is recorded. -/
theorem retryAux_sleeps_nil {E : Type} (env : RetryEnv E) :
    ∀ fuel lastErr attempt, maxRetries ≤ attempt →
      (retryAux env lastErr fuel attempt).2.2 = [] := by
  intro fuel
  induction fuel with
  | zero => intro le a _; simp [retryAux]
  | succ n ih =>
    intro le a ha
    simp only [retryAux]
    split
    · simp
    · rename_i e he
      split
      · simp
      · split
        · omega
        · exact ih (some e) (a + 1) (by omega)

/-- Helper: the loop completes at most `maxRetries - attempt` sleeps. -/
theorem retryAux_sleeps_len {E : Type} (env : RetryEnv E) :
    ∀ fuel lastErr attempt,
      (retryAux env lastErr fuel attempt).2.2.length ≤ maxRetries - attempt := by
  intro fuel
  induction fuel with
  | zero => intro le a; simp [retryAux]
  | succ n ih =>
    intro le a
    simp only [retryAux]
    split
    · simp
    · rename_i e he
      split
      · simp
      · split
        · split
          · simp
          · have := ih (some e) (a + 1)
            simp only [List.length_cons]
            omega
        · rw [retryAux_sleeps_nil env n (some e) (a + 1) (by omega)]
          simp

/-- Helper: the i-th completed back-off sleep of the loop started at
`attempt` is the scheduled delay of attempt `attempt + i`. -/
theorem retryAux_sleeps_getD {E : Type} (env : RetryEnv E) :
    ∀ fuel lastErr attempt i,
      i < (retryAux env lastErr fuel attempt).2.2.length →
      (retryAux env lastErr fuel attempt).2.2.getD i 0 =
        sleepDelay env (attempt + i) := by
  intro fuel
  induction fuel with
  | zero => intro le a i h; simp [retryAux] at h
  | succ n ih =>
    intro le a i h
    cases hres : env.attemptResult a with
    | none => simp [retryAux, hres] at h
    | some e =>
      by_cases hca : env.cancelledAfterAttempt a = true
      · simp [retryAux, hres, hca] at h
      · by_cases hlt : a < maxRetries
        · by_cases hcs : env.cancelledDuringSleep a = true
          · simp [retryAux, hres, hca, hcs, hlt] at h
          · simp only [retryAux, hres, hca, hcs, hlt] at h ⊢
            simp only [Bool.false_eq_true, if_false, if_true, List.length_cons] at h ⊢
            cases i with
            | zero => simp
            | succ j =>
              simp only [List.getD_cons_succ]
              have hj : j < (retryAux env (some e) n (a + 1)).2.2.length := by
                simp at h
                omega
              rw [ih (some e) (a + 1) j hj]
              congr 1
              omega
        · have hnil := retryAux_sleeps_nil env n (some e) (a + 1) (by omega)
          simp [retryAux, hres, hca, hlt, hnil] at h

/-- C8: `retryWithBackoff` (hence `S3Store.Put`, which wraps one upload in
it) invokes the operation at most 4 times (initial try plus 3 retries); the
back-off sleep completed before retry `k` (0-based index `i = k - 1` here)
is `500 ms * 2^i` scaled by the jitter factor `0.5 + rand.Float64()`, which
lies in `[0.5, 1.5)` — so the sleep lies in `[250*2^i, 750*2^i)` ms; and if
the context is cancelled (observed after a failing attempt or during the
back-off sleep), the last error is returned with no further attempt and no
further completed sleep. -/
theorem C8_retry_policy {E : Type} (env : RetryEnv E)
    (hu : ∀ i, 0 ≤ env.jitterU i ∧ env.jitterU i < 1) :
    (retryWithBackoff env).2.1 ≤ 4
  ∧ (retryWithBackoff env).2.2.length ≤ 3
  ∧ (∀ i, i < (retryWithBackoff env).2.2.length →
      (retryWithBackoff env).2.2.getD i 0 = 500 * 2 ^ i * (1/2 + env.jitterU i)
      ∧ 250 * 2 ^ i ≤ (retryWithBackoff env).2.2.getD i 0
      ∧ (retryWithBackoff env).2.2.getD i 0 < 750 * 2 ^ i)
  ∧ (∀ k : Nat, ∀ e : E, k ≤ 3 →
      (∀ j, j < k → ∃ ej, env.attemptResult j = some ej ∧
        env.cancelledAfterAttempt j = false ∧ env.cancelledDuringSleep j = false) →
      env.attemptResult k = some e →
      (env.cancelledAfterAttempt k = true ∨ env.cancelledDuringSleep k = true) →
      retryWithBackoff env = (some e, k + 1, (List.range k).map (sleepDelay env))) := by
  refine ⟨?_, ?_, ?_, ?_⟩
  · have h := retryAux_attempts_le env (maxRetries + 1) none 0
    simpa [retryWithBackoff, maxRetries] using h
  · have h := retryAux_sleeps_len env (maxRetries + 1) none 0
    simpa [retryWithBackoff, maxRetries] using h
  · intro i hi
    have hgd := retryAux_sleeps_getD env (maxRetries + 1) none 0 i hi
    have hval : (retryWithBackoff env).2.2.getD i 0 = 500 * 2 ^ i * (1/2 + env.jitterU i) := by
      rw [retryWithBackoff, hgd]
      simp [sleepDelay, baseRetryDelay]
    refine ⟨hval, ?_, ?_⟩
    · rw [hval]
      have h2 : (0 : ℚ) < 2 ^ i := by positivity
      nlinarith [(hu i).1, (hu i).2]
    · rw [hval]
      have h2 : (0 : ℚ) < 2 ^ i := by positivity
      nlinarith [(hu i).1, (hu i).2]
  · intro k e hk hprev hres hcancel
    have hstep : env.cancelledAfterAttempt k = true ∨
        (env.cancelledAfterAttempt k = false ∧ env.cancelledDuringSleep k = true) := by
      rcases hcancel with h | h
      · exact Or.inl h
      · by_cases hca : env.cancelledAfterAttempt k = true
        · exact Or.inl hca
        · exact Or.inr ⟨by simpa using hca, h⟩
    interval_cases k
    · rcases hstep with hca | ⟨hca, hcs⟩
      · simp [retryWithBackoff, retryAux, hres, hca, maxRetries]
      · simp [retryWithBackoff, retryAux, hres, hca, hcs, maxRetries]
    · obtain ⟨e0, h0r, h0a, h0s⟩ := hprev 0 (by omega)
      rcases hstep with hca | ⟨hca, hcs⟩
      · simp [retryWithBackoff, retryAux, hres, h0r, h0a, h0s, hca, maxRetries,
          List.range_succ]
      · simp [retryWithBackoff, retryAux, hres, h0r, h0a, h0s, hca, hcs, maxRetries,
          List.range_succ]
    · obtain ⟨e0, h0r, h0a, h0s⟩ := hprev 0 (by omega)
      obtain ⟨e1, h1r, h1a, h1s⟩ := hprev 1 (by omega)
      rcases hstep with hca | ⟨hca, hcs⟩
      · simp [retryWithBackoff, retryAux, hres, h0r, h0a, h0s, h1r, h1a, h1s, hca,
          maxRetries, List.range_succ]
      · simp [retryWithBackoff, retryAux, hres, h0r, h0a, h0s, h1r, h1a, h1s, hca, hcs,
          maxRetries, List.range_succ]
    · obtain ⟨e0, h0r, h0a, h0s⟩ := hprev 0 (by omega)
      obtain ⟨e1, h1r, h1a, h1s⟩ := hprev 1 (by omega)
      obtain ⟨e2, h2r, h2a, h2s⟩ := hprev 2 (by omega)
      rcases hstep with hca | ⟨hca, hcs⟩
      · simp [retryWithBackoff, retryAux, hres, h0r, h0a, h0s, h1r, h1a, h1s, h2r, h2a,
          h2s, hca, maxRetries, List.range_succ]
      · simp [retryWithBackoff, retryAux, hres, h0r, h0a, h0s, h1r, h1a, h1s, h2r, h2a,
          h2s, hca, hcs, maxRetries, List.range_succ]

/-- C8 witness: an environment whose first two attempts fail quietly, whose
third fails with cancellation observed, and whose jitter draw is always 1/4:
the run returns the third error after exactly 3 attempts, having slept
375 ms and 750 ms. -/
theorem C8_retry_witness :
    retryWithBackoff (⟨fun j => if j = 2 then some 7 else some 5,
        fun j => decide (j = 2), fun _ => false, fun _ => 1/4⟩ : RetryEnv Nat) =
      (some 7, 3, [375, 750]) := by
  have hu : ∀ i : Nat,
      0 ≤ (⟨fun j => if j = 2 then some 7 else some 5,
        fun j => decide (j = 2), fun _ => false, fun _ => 1/4⟩ : RetryEnv Nat).jitterU i
      ∧ (⟨fun j => if j = 2 then some 7 else some 5,
        fun j => decide (j = 2), fun _ => false, fun _ => 1/4⟩ : RetryEnv Nat).jitterU i < 1 :=
    fun i => ⟨by norm_num, by norm_num⟩
  have h := (C8_retry_policy
      (⟨fun j => if j = 2 then some 7 else some 5,
        fun j => decide (j = 2), fun _ => false, fun _ => 1/4⟩ : RetryEnv Nat)
      hu).2.2.2 2 7 (by decide)
      (fun j hj => by interval_cases j <;> exact ⟨5, rfl, rfl, rfl⟩)
      rfl (Or.inl (by decide))
  rw [h]
  norm_num [sleepDelay, baseRetryDelay, List.range_succ]

/-- Helper: a fresh put is found under its key. -/
theorem lookupKey_storePut_self (st : List (String × List Nat)) (k : String)
    (d : List Nat) : lookupKey k (storePut st k d) = some d := by
  simp [storePut, lookupKey]

/-- Helper: after filtering a key out, lookup of that key fails. -/
theorem lookupKey_filter_self (st : List (String × List Nat)) (k : String) :
    lookupKey k (st.filter fun kv => kv.1 ≠ k) = none := by
  induction st with
  | nil => rfl
  | cons kv rest ih =>
    obtain ⟨k2, v⟩ := kv
    by_cases h : k2 = k
    · rw [List.filter_cons, if_neg (by simp [h])]
      exact ih
    · rw [List.filter_cons, if_pos (by simp [h]), lookupKey, if_neg h]
      exact ih

/-- C5: for a rotated batch present on local disk, `uploadFile` with a
failing put leaves the whole world unchanged — in particular the local
batch file is still present for the next startup scan; with a successful
put, the bytes sit in the object store at the derived destination key and
the local file is removed (unless the remove itself fails, in which case
only the local file lingers). The local file is thus removed only after
the put has succeeded. -/
theorem C5_local_file_outlives_failed_put (w : SinkWorld)
    (topic src dayStr hourStr : String) (data : List Nat)
    (hsrc : lookupKey src w.localFiles = some data) :
    (∀ rm, uploadFile w topic src dayStr hourStr true rm = w)
  ∧ lookupKey src (uploadFile w topic src dayStr hourStr true false).localFiles = some data
  ∧ (uploadFile w topic src dayStr hourStr false false).localFiles =
      w.localFiles.filter (fun kv => kv.1 ≠ src)
  ∧ lookupKey src (uploadFile w topic src dayStr hourStr false false).localFiles = none
  ∧ lookupKey (uploadDestKey topic src dayStr hourStr)
      (uploadFile w topic src dayStr hourStr false false).store = some data
  ∧ (uploadFile w topic src dayStr hourStr false true).localFiles = w.localFiles := by
  have h3 : (uploadFile w topic src dayStr hourStr false false).localFiles =
      w.localFiles.filter (fun kv => kv.1 ≠ src) := by
    simp [uploadFile, hsrc]
  refine ⟨?_, ?_, h3, ?_, ?_, ?_⟩
  · intro rm
    simp [uploadFile, hsrc]
  · simp [uploadFile, hsrc]
  · rw [h3]
    exact lookupKey_filter_self w.localFiles src
  · have h5 : (uploadFile w topic src dayStr hourStr false false).store =
        storePut w.store (uploadDestKey topic src dayStr hourStr) data := by
      simp [uploadFile, hsrc, uploadDestKey]
    rw [h5]
    exact lookupKey_storePut_self w.store _ data
  · simp [uploadFile, hsrc]

/-- C5 witness: a concrete world with one rotated batch. -/
theorem C5_upload_witness :
    (uploadFile ⟨[("buffer/request_facts/batch_x.jsonl", [5, 6])], []⟩
        "request_facts" "buffer/request_facts/batch_x.jsonl" "2025-01-15" "10" true false)
      = ⟨[("buffer/request_facts/batch_x.jsonl", [5, 6])], []⟩
  ∧ lookupKey "raw/request_facts/2025-01-15/10/batch_x.jsonl"
      (uploadFile ⟨[("buffer/request_facts/batch_x.jsonl", [5, 6])], []⟩
        "request_facts" "buffer/request_facts/batch_x.jsonl" "2025-01-15" "10" false
        false).store = some [5, 6] := by
  have h := C5_local_file_outlives_failed_put
    ⟨[("buffer/request_facts/batch_x.jsonl", [5, 6])], []⟩
    "request_facts" "buffer/request_facts/batch_x.jsonl" "2025-01-15" "10" [5, 6]
    (by simp [lookupKey])
  refine ⟨h.1 false, ?_⟩
  have h2 := h.2.2.2.2.1
  have hkey : uploadDestKey "request_facts" "buffer/request_facts/batch_x.jsonl"
      "2025-01-15" "10" = "raw/request_facts/2025-01-15/10/batch_x.jsonl" := by
    simp [uploadDestKey, baseName]
  rw [hkey] at h2
  exact h2

/-- Helper: the batch loop, when the k-th sink write is the first to fail,
returns 500 with no counts and appends exactly the first k parsed records. -/
theorem batchLoop_first_write_fails (parse : List Nat → Option (List Nat))
    (writeOk : Nat → Bool) (f : Nat)
    (hok : ∀ j, j < f → writeOk j = true) (hfail : writeOk f = false) :
    ∀ lines buffer acceptedN rejectedN w, w ≤ f →
      f - w < (parsedLines parse lines).length →
      batchLoop parse writeOk buffer acceptedN rejectedN w lines =
        { status := 500, accepted := none, rejected := none,
          buffer := buffer ++ (parsedLines parse lines).take (f - w) } := by
  intro lines
  induction lines with
  | nil => intro buffer aN rN w hw hlt; simp [parsedLines] at hlt
  | cons line rest ih =>
    intro buffer aN rN w hw hlt
    by_cases hemp : line.isEmpty
    · have h0 : line = [] := by simpa using hemp
      rw [batchLoop]
      simp only [hemp, if_true]
      have hskip : parsedLines parse (line :: rest) = parsedLines parse rest := by
        simp [parsedLines, h0]
      rw [hskip] at hlt ⊢
      exact ih buffer aN rN w hw hlt
    · have h0 : ¬(line = []) := by simpa using hemp
      cases hp : parse line with
      | none =>
        rw [batchLoop]
        simp only [hemp, Bool.false_eq_true, if_false, hp]
        have hskip : parsedLines parse (line :: rest) = parsedLines parse rest := by
          simp [parsedLines, h0, hp]
        rw [hskip] at hlt ⊢
        exact ih buffer aN (rN + 1) w hw hlt
      | some cleanData =>
        have hpl : parsedLines parse (line :: rest) =
            cleanData :: parsedLines parse rest := by
          simp [parsedLines, h0, hp]
        rcases Nat.lt_or_ge w f with hwf | hwf
        · rw [batchLoop]
          simp only [hemp, if_false, hp, hok w hwf, if_true]
          rw [ih (buffer ++ [cleanData]) (aN + 1) rN (w + 1) (by omega)
            (by rw [hpl] at hlt; simp at hlt ⊢; omega)]
          rw [hpl]
          have hfw : f - w = (f - (w + 1)) + 1 := by omega
          rw [hfw, List.take_succ_cons]
          simp
        · have hwf2 : w = f := by omega
          rw [batchLoop]
          simp only [hemp, if_false, hp, hwf2, hfail]
          simp [hpl, hwf2]

/-- C9: if the k-th `sink.Write` of a `/api/v1/facts/batch` request fails
(0-based, counting only the lines that parsed), the handler returns 500 at
once with no `accepted`/`rejected` counts, later lines are not processed,
and the records persisted for the earlier parsed lines are still in the
sink buffer — the batch endpoint is not atomic. -/
theorem C9_batch_not_atomic (parse : List Nat → Option (List Nat))
    (writeOk : Nat → Bool) (buffer : List (List Nat)) (body : List Nat) (f : Nat)
    (hok : ∀ j, j < f → writeOk j = true) (hfail : writeOk f = false)
    (hlt : f < (parsedLines parse (splitJSONL body)).length) :
    handleBatchBody parse writeOk buffer body =
      { status := 500, accepted := none, rejected := none,
        buffer := buffer ++ (parsedLines parse (splitJSONL body)).take f } := by
  have hne : (splitJSONL body).isEmpty = false := by
    rcases h : splitJSONL body with _ | ⟨l, rest⟩
    · rw [h] at hlt
      simp [parsedLines] at hlt
    · simp
  rw [handleBatchBody]
  simp only [hne, Bool.false_eq_true, if_false]
  have := batchLoop_first_write_fails parse writeOk f hok hfail (splitJSONL body)
    buffer 0 0 0 (by omega) (by omega)
  simpa using this

/-- C9 witness: a three-line body whose second write fails: the first record
stays in the buffer, the response is 500 with no counts. -/
theorem C9_batch_witness :
    handleBatchBody (fun l => some l) (fun j => decide (j ≠ 1)) [[9]]
      [65, 10, 66, 10, 67] =
      { status := 500, accepted := none, rejected := none,
        buffer := [[9], [65]] } := by
  have h := C9_batch_not_atomic (fun l => some l) (fun j => decide (j ≠ 1)) [[9]]
    [65, 10, 66, 10, 67] 1
    (fun j hj => by interval_cases j; rfl) (by decide) (by decide)
  rw [h]
  decide

/-- C2 counterexample: a lock file left by a dead process (pid 424242, not
alive). The events rollup (`service_events_daily`) fails with its
"already running" error instead of deleting the stale lock and retrying —
its `acquireLock` has no stale-owner detection, so the claim's "this holds
for both ... the events lock" is false. The same state is in fact stale
(`isLockStale` returns true on it). -/
theorem C2_counterexample :
    isLockStale (some "pid=424242 started=2025-01-01T00:00:00Z\n")
      (fun _ => false) = true
  ∧ (acquireLockEvents
      ⟨some "pid=424242 started=2025-01-01T00:00:00Z\n", fun _ => false⟩
      7 "2025-01-02T00:00:00Z").2.isSome = true
  ∧ (acquireLockEvents
      ⟨some "pid=424242 started=2025-01-01T00:00:00Z\n", fun _ => false⟩
      7 "2025-01-02T00:00:00Z").1.lockContents =
      some "pid=424242 started=2025-01-01T00:00:00Z\n" := by
  refine ⟨by decide, rfl, rfl⟩

/-- C2 (amended): with no lock file, both rollups create the lock (writing
`pid=<self> started=<now>`) and succeed. On conflict, the metrics rollup
(`request_metrics_minute`) reads the recorded `pid=<n>` — concretely,
staleness of a well-formed lock line is exactly non-liveness of the
recorded pid — and when the lock is stale it deletes it and retries the
exclusive create exactly once, acquiring the lock; when the owner is alive
it fails with "already running" leaving the lock untouched. The events
rollup (`service_events_daily`), however, fails on any conflict without
stale detection, its lock file untouched. -/
theorem C2_lock_behaviour (w : LockWorld) (selfPid : Int) (started : String) :
    (w.lockContents = none →
      acquireLockMetrics w selfPid started =
        ({ w with lockContents := some (lockLine selfPid started) }, none)
      ∧ acquireLockEvents w selfPid started =
        ({ w with lockContents := some (lockLine selfPid started) }, none))
  ∧ (∀ c, w.lockContents = some c → isLockStale (some c) w.alive = true →
      acquireLockMetrics w selfPid started =
        ({ w with lockContents := some (lockLine selfPid started) }, none))
  ∧ (∀ c, w.lockContents = some c → isLockStale (some c) w.alive = false →
      acquireLockMetrics w selfPid started =
        (w, some "rollup already running (lock file exists)"))
  ∧ (∀ c, w.lockContents = some c →
      acquireLockEvents w selfPid started =
        (w, some "event rollup already running (lock file exists)"))
  ∧ (∀ alive2 : Int → Bool,
      isLockStale (some "pid=424242 started=2025-01-01T00:00:00Z\n") alive2 =
        !alive2 424242) := by
  refine ⟨?_, ?_, ?_, ?_, ?_⟩
  · intro h
    constructor <;> simp [acquireLockMetrics, acquireLockEvents, h]
  · intro c hc hstale
    rw [acquireLockMetrics, hc]
    simp [hstale]
  · intro c hc hstale
    rw [acquireLockMetrics, hc]
    simp [hstale]
  · intro c hc
    rw [acquireLockEvents, hc]
  · intro alive2
    rfl

/-- C2 witness: applying the lock behaviour at a stale lock held by dead
pid 424242 and at a live-owner lock: the metrics rollup reclaims the stale
one and writes its own `pid=7` line; with the owner alive it fails. -/
theorem C2_lock_witness :
    acquireLockMetrics
        ⟨some "pid=424242 started=2025-01-01T00:00:00Z\n", fun _ => false⟩
        7 "2025-01-02T00:00:00Z" =
      (⟨some "pid=7 started=2025-01-02T00:00:00Z\n", fun _ => false⟩, none)
  ∧ acquireLockMetrics
        ⟨some "pid=424242 started=2025-01-01T00:00:00Z\n", fun _ => true⟩
        7 "2025-01-02T00:00:00Z" =
      (⟨some "pid=424242 started=2025-01-01T00:00:00Z\n", fun _ => true⟩,
        some "rollup already running (lock file exists)") := by
  constructor
  · have h := (C2_lock_behaviour
      ⟨some "pid=424242 started=2025-01-01T00:00:00Z\n", fun _ => false⟩
      7 "2025-01-02T00:00:00Z").2.1
      "pid=424242 started=2025-01-01T00:00:00Z\n" rfl (by decide)
    rw [h]
    rfl
  · have h := (C2_lock_behaviour
      ⟨some "pid=424242 started=2025-01-01T00:00:00Z\n", fun _ => true⟩
      7 "2025-01-02T00:00:00Z").2.2.1
      "pid=424242 started=2025-01-01T00:00:00Z\n" rfl (by decide)
    rw [h]

/-- C3 counterexample: a GET request with a valid body and correct key hits
a rate limiter with 0 tokens and receives 429, not the 405 the claim
promises for non-POST requests; likewise a GET request with a wrong
X-API-Key (and tokens available) receives 401, not 405 — the middleware
order is rate limit, then auth, then the method check. -/
theorem C3_counterexample :
    (singleRecordPipeline ⟨0, 100, 200⟩ "secret" true []
      ⟨"GET", "application/json", "secret", [1], some [1]⟩).2.1 = 429
  ∧ (singleRecordPipeline ⟨5, 100, 200⟩ "secret" true []
      ⟨"GET", "application/json", "wrong", [1], some [1]⟩).2.1 = 401
  ∧ (batchPipeline ⟨0, 100, 200⟩ "secret" (fun l => some l) (fun _ => true) []
      ⟨"GET", "application/json", "secret", [1], some [1]⟩).2.1 = 429 := by
  refine ⟨rfl, ?_, rfl⟩
  decide

/-- C3 (amended): the pipeline of `/api/v1/facts`, `/api/v1/facts/batch`
and `/api/v1/events` applies its checks in the order: rate limit (429),
X-API-Key auth (401), HTTP method (405), Content-Type (415), body size cap
(413). In particular a non-POST request is rejected with 429 when the
limiter has no tokens and with 401 when the key is wrong; it receives 405
only once both of those checks pass. (`singleRecordPipeline` is the shared
shape of the facts and events endpoints.) -/
theorem C3_pipeline_check_order (rl : RateLimiter) (apiKey : String) (sinkOk : Bool)
    (parse : List Nat → Option (List Nat)) (writeOk : Nat → Bool)
    (buffer : List (List Nat)) (req : HttpRequest) :
    (rl.tokens ≤ 0 →
      (singleRecordPipeline rl apiKey sinkOk buffer req).2.1 = 429
      ∧ (batchPipeline rl apiKey parse writeOk buffer req).2.1 = 429)
  ∧ (0 < rl.tokens → authOK apiKey req.xApiKey = false →
      (singleRecordPipeline rl apiKey sinkOk buffer req).2.1 = 401
      ∧ (batchPipeline rl apiKey parse writeOk buffer req).2.1 = 401)
  ∧ (0 < rl.tokens → authOK apiKey req.xApiKey = true → req.method ≠ "POST" →
      (singleRecordPipeline rl apiKey sinkOk buffer req).2.1 = 405
      ∧ (batchPipeline rl apiKey parse writeOk buffer req).2.1 = 405)
  ∧ (0 < rl.tokens → authOK apiKey req.xApiKey = true → req.method = "POST" →
      requireJSON req.contentType = false →
      (singleRecordPipeline rl apiKey sinkOk buffer req).2.1 = 415
      ∧ (batchPipeline rl apiKey parse writeOk buffer req).2.1 = 415)
  ∧ (0 < rl.tokens → authOK apiKey req.xApiKey = true → req.method = "POST" →
      requireJSON req.contentType = true → maxBodyBytes < req.body.length →
      (singleRecordPipeline rl apiKey sinkOk buffer req).2.1 = 413
      ∧ (batchPipeline rl apiKey parse writeOk buffer req).2.1 = 413) := by
  refine ⟨?_, ?_, ?_, ?_, ?_⟩
  · intro h
    have ha : rl.allow = (rl, false) := by
      simp [RateLimiter.allow, h]
    constructor <;> simp [singleRecordPipeline, batchPipeline, ha]
  · intro h hauth
    have ha : rl.allow = ({ rl with tokens := rl.tokens - 1 }, true) := by
      rw [RateLimiter.allow, if_neg (by omega)]
    constructor <;> simp [singleRecordPipeline, batchPipeline, ha, hauth]
  · intro h hauth hm
    have ha : rl.allow = ({ rl with tokens := rl.tokens - 1 }, true) := by
      rw [RateLimiter.allow, if_neg (by omega)]
    constructor <;>
      simp [singleRecordPipeline, batchPipeline, handleSingleRecord,
        handleBatchRecord, ha, hauth, hm]
  · intro h hauth hm hct
    have ha : rl.allow = ({ rl with tokens := rl.tokens - 1 }, true) := by
      rw [RateLimiter.allow, if_neg (by omega)]
    constructor <;>
      simp [singleRecordPipeline, batchPipeline, handleSingleRecord,
        handleBatchRecord, ha, hauth, hm, hct]
  · intro h hauth hm hct hsize
    have ha : rl.allow = ({ rl with tokens := rl.tokens - 1 }, true) := by
      rw [RateLimiter.allow, if_neg (by omega)]
    constructor <;>
      simp [singleRecordPipeline, batchPipeline, handleSingleRecord,
        handleBatchRecord, ha, hauth, hm, hct, hsize]

/-- C3 witness: with tokens available and the right key, a GET request gets
its 405; a POST with a text/plain Content-Type gets 415; a POST with a body
over 1 MiB gets 413. -/
theorem C3_pipeline_witness :
    (singleRecordPipeline ⟨5, 100, 200⟩ "secret" true []
      ⟨"GET", "application/json", "secret", [1], some [1]⟩).2.1 = 405
  ∧ (singleRecordPipeline ⟨5, 100, 200⟩ "secret" true []
      ⟨"POST", "text/plain", "secret", [1], some [1]⟩).2.1 = 415
  ∧ (batchPipeline ⟨5, 100, 200⟩ "secret" (fun l => some l) (fun _ => true) []
      ⟨"POST", "application/json", "secret", List.replicate (1 <<< 20 + 1) 65,
        none⟩).2.1 = 413 := by
  refine ⟨?_, ?_, ?_⟩
  · exact ((C3_pipeline_check_order ⟨5, 100, 200⟩ "secret" true (fun l => some l)
      (fun _ => true) [] ⟨"GET", "application/json", "secret", [1], some [1]⟩).2.2.1
      (by decide) (by decide) (by decide)).1
  · exact ((C3_pipeline_check_order ⟨5, 100, 200⟩ "secret" true (fun l => some l)
      (fun _ => true) [] ⟨"POST", "text/plain", "secret", [1], some [1]⟩).2.2.2.1
      (by decide) (by decide) rfl (by decide)).1
  · exact ((C3_pipeline_check_order ⟨5, 100, 200⟩ "secret" true (fun l => some l)
      (fun _ => true) [] ⟨"POST", "application/json", "secret",
        List.replicate (1 <<< 20 + 1) 65, none⟩).2.2.2.2
      (by decide) (by decide) rfl (by decide)
      (by rw [List.length_replicate]; decide)).2

/-- C1 (bug in the events variant): on a day with one pre-existing warehouse
blob and a non-empty aggregation, the events rollup `processDay` deletes the
day's previous blobs BEFORE putting the new one; when the put then fails,
the run exits with an error and the pre-existing blob is already gone — the
partition is left empty, losing the stale-data guarantee. The metrics
variant, by contrast, on the same shape of input leaves the store untouched
when its put fails (put first, delete after), as the claim — and the spec's
"if step 1 fails, step 2 is skipped" — requires for both. -/
theorem C1_events_swap_deletes_before_put :
    (outputSwapEvents
        [("warehouse/service_events_daily/events_aaaa_2025-01-15.parquet", [1])]
        "warehouse/service_events_daily" "bbbb" "2025-01-15" [2] false true) =
      ([], false)
  ∧ (outputSwapMetrics
        [("warehouse/request_metrics_minute/metrics_aaaa_2025-01-15.parquet", [1])]
        "warehouse/request_metrics_minute" "bbbb" "2025-01-15" [2] false true) =
      ([("warehouse/request_metrics_minute/metrics_aaaa_2025-01-15.parquet", [1])],
        false)
  ∧ (outputSwapMetrics
        [("warehouse/request_metrics_minute/metrics_aaaa_2025-01-15.parquet", [1])]
        "warehouse/request_metrics_minute" "bbbb" "2025-01-15" [2] true true) =
      ([("warehouse/request_metrics_minute/metrics_bbbb_2025-01-15.parquet", [2])],
        true) := by
  refine ⟨by decide, by decide, by decide⟩

/-- Helper: unfolding of `splitSlash` on a cons, given the tail split. -/
theorem splitSlash_cons_eq (c : Char) (rest comp : List Char)
    (comps : List (List Char)) (h : splitSlash rest = comp :: comps) :
    splitSlash (c :: rest) =
      if c = '/' then [] :: comp :: comps else (c :: comp) :: comps := by
  simp only [splitSlash]
  rw [h]

/-- Helper: splitting never yields the empty list of components. -/
theorem splitSlash_ne_nil (s : List Char) : splitSlash s ≠ [] := by
  induction s with
  | nil => simp [splitSlash]
  | cons c rest ih =>
    cases h : splitSlash rest with
    | nil => exact absurd h ih
    | cons comp comps =>
      rw [splitSlash_cons_eq c rest comp comps h]
      split <;> simp

/-- Helper: a leading slash contributes a leading empty component. -/
theorem splitSlash_cons_slash (s : List Char) :
    splitSlash ('/' :: s) = [] :: splitSlash s := by
  cases h : splitSlash s with
  | nil => exact absurd h (splitSlash_ne_nil s)
  | cons comp comps =>
    rw [splitSlash_cons_eq '/' s comp comps h]
    simp

/-- Helper: splitting distributes over a slash-joined concatenation. -/
theorem splitSlash_append (a b : List Char) :
    splitSlash (a ++ '/' :: b) = splitSlash a ++ splitSlash b := by
  induction a with
  | nil =>
    rw [List.nil_append, splitSlash_cons_slash]
    simp [splitSlash]
  | cons c a2 ih =>
    cases h : splitSlash a2 with
    | nil => exact absurd h (splitSlash_ne_nil a2)
    | cons comp comps =>
      have h2 : splitSlash (a2 ++ '/' :: b) = comp :: (comps ++ splitSlash b) := by
        rw [ih, h]
        rfl
      rw [List.cons_append, splitSlash_cons_eq c _ comp (comps ++ splitSlash b) h2,
        splitSlash_cons_eq c a2 comp comps h]
      split <;> simp

/-- Helper: components contain no slash. -/
theorem splitSlash_mem_no_slash (s : List Char) :
    ∀ p ∈ splitSlash s, '/' ∉ p := by
  induction s with
  | nil =>
    intro p hp
    simp [splitSlash] at hp
    simp [hp]
  | cons c rest ih =>
    intro p hp
    cases h : splitSlash rest with
    | nil => exact absurd h (splitSlash_ne_nil rest)
    | cons comp comps =>
      rw [splitSlash_cons_eq c rest comp comps h] at hp
      split at hp
      · rename_i hc
        rcases List.mem_cons.mp hp with h1 | h1
        · simp [h1]
        · exact ih p (by rw [h]; exact h1)
      · rename_i hc
        rcases List.mem_cons.mp hp with h1 | h1
        · subst h1
          intro hmem
          rcases List.mem_cons.mp hmem with h2 | h2
          · exact hc h2.symm
          · exact ih comp (by rw [h]; exact List.mem_cons_self comp comps) h2
        · exact ih p (by rw [h]; exact List.mem_cons_of_mem comp h1)

/-- Helper: the first component is a prefix of the path. -/
theorem splitSlash_head_prefix (s : List Char) :
    ∀ comp comps, splitSlash s = comp :: comps → comp <+: s := by
  induction s with
  | nil =>
    intro comp comps h
    simp only [splitSlash] at h
    injection h with h1 h2
    cases h1
    exact List.nil_prefix
  | cons c rest ih =>
    intro comp comps h
    cases h2 : splitSlash rest with
    | nil => exact absurd h2 (splitSlash_ne_nil rest)
    | cons comp0 comps0 =>
      rw [splitSlash_cons_eq c rest comp0 comps0 h2] at h
      split at h
      · injection h with ha hb
        rw [← ha]
        exact List.nil_prefix
      · rename_i hc
        injection h with ha hb
        rw [← ha]
        exact (List.cons_prefix_cons).mpr ⟨rfl, ih comp0 comps0 h2⟩

/-- Helper: every component occurs inside the path. -/
theorem splitSlash_mem_infix (s : List Char) :
    ∀ p ∈ splitSlash s, p <:+: s := by
  induction s with
  | nil =>
    intro p hp
    simp [splitSlash] at hp
    simp [hp]
  | cons c rest ih =>
    intro p hp
    cases h : splitSlash rest with
    | nil => exact absurd h (splitSlash_ne_nil rest)
    | cons comp comps =>
      rw [splitSlash_cons_eq c rest comp comps h] at hp
      split at hp
      · rcases List.mem_cons.mp hp with h1 | h1
        · simp [h1]
        · exact List.infix_cons (ih p (by rw [h]; exact h1))
      · rcases List.mem_cons.mp hp with h1 | h1
        · subst h1
          refine List.IsPrefix.isInfix ?_
          exact (List.cons_prefix_cons).mpr
            ⟨rfl, splitSlash_head_prefix rest comp comps h⟩
        · exact List.infix_cons (ih p (by rw [h]; exact List.mem_cons_of_mem comp h1))

/-- Helper: anything on the stack after folding `cleanStep` came from the
initial stack or from the processed components (with `.` and empties
dropped, and a surviving `..` only in non-rooted mode). -/
theorem cleanStep_fold_mem (rooted : Bool) :
    ∀ (ps acc : List (List Char)) (q : List Char),
      q ∈ ps.foldl (cleanStep rooted) acc →
      q ∈ acc ∨ (q ∈ ps ∧ q ≠ [] ∧ q ≠ ['.'] ∧ q ≠ ['.', '.']) ∨
        (rooted = false ∧ q = ['.', '.']) := by
  intro ps
  induction ps with
  | nil => intro acc q hq; exact Or.inl hq
  | cons p ps2 ih =>
    intro acc q hq
    rw [List.foldl_cons] at hq
    rcases ih (cleanStep rooted acc p) q hq with hacc | hin | hdd
    · unfold cleanStep at hacc
      split at hacc
      · exact Or.inl hacc
      · rename_i hskip
        split at hacc
        · rename_i hdd2
          split at hacc
          · exact Or.inl (List.dropLast_prefix acc |>.subset hacc)
          · split at hacc
            · exact Or.inl hacc
            · rename_i hroot
              rcases List.mem_append.mp hacc with h1 | h1
              · exact Or.inl h1
              · simp only [List.mem_singleton] at h1
                exact Or.inr (Or.inr ⟨by simpa using hroot, h1⟩)
        · rename_i hdd2
          rcases List.mem_append.mp hacc with h1 | h1
          · exact Or.inl h1
          · simp only [List.mem_singleton] at h1
            subst h1
            refine Or.inr (Or.inl ⟨List.mem_cons_self .., ?_, ?_, hdd2⟩)
            · intro h2
              exact hskip (Or.inl h2)
            · intro h2
              exact hskip (Or.inr h2)
    · exact Or.inr (Or.inl ⟨List.mem_cons_of_mem p hin.1, hin.2⟩)
    · exact Or.inr (Or.inr hdd)

/-- Helper: over components free of `..` the stack only grows: the fold
appends exactly the non-empty, non-`.` components. -/
theorem cleanStep_fold_no_pops (rooted : Bool) :
    ∀ (ps acc : List (List Char)), (∀ p ∈ ps, p ≠ ['.', '.']) →
      ps.foldl (cleanStep rooted) acc =
        acc ++ ps.filter (fun p => !decide (p = [] ∨ p = ['.'])) := by
  intro ps
  induction ps with
  | nil => intro acc h; simp
  | cons p ps2 ih =>
    intro acc h
    rw [List.foldl_cons, List.filter_cons]
    by_cases hp : p = [] ∨ p = ['.']
    · have hstep : cleanStep rooted acc p = acc := by
        unfold cleanStep
        rw [if_pos hp]
      rw [hstep, ih acc (fun q hq => h q (List.mem_cons_of_mem p hq))]
      simp [hp]
    · have hstep : cleanStep rooted acc p = acc ++ [p] := by
        unfold cleanStep
        rw [if_neg hp, if_neg (h p (List.mem_cons_self p ps2))]
      rw [hstep, ih (acc ++ [p]) (fun q hq => h q (List.mem_cons_of_mem p hq))]
      simp [hp]

/-- Helper: a slash-free path is a single component. -/
theorem splitSlash_no_slash (p : List Char) (h : '/' ∉ p) :
    splitSlash p = [p] := by
  induction p with
  | nil => simp [splitSlash]
  | cons c rest ih =>
    have hc : ¬(c = '/') := fun hcc => h (hcc ▸ List.mem_cons_self c rest)
    have hr : splitSlash rest = [rest] := ih (fun hm => h (List.mem_cons_of_mem c hm))
    rw [splitSlash_cons_eq c rest rest [] hr, if_neg hc]

/-- Helper: splitting a slash-join of slash-free components recovers them. -/
theorem splitSlash_joinSlash (out : List (List Char)) (p : List Char)
    (h : ∀ r ∈ p :: out, '/' ∉ r) :
    splitSlash (joinSlash (p :: out)) = p :: out := by
  induction out generalizing p with
  | nil =>
    rw [joinSlash]
    exact splitSlash_no_slash p (h p (List.mem_cons_self p []))
  | cons q out2 ih =>
    have hjoin : joinSlash (p :: q :: out2) = p ++ '/' :: joinSlash (q :: out2) := by
      rfl
    rw [hjoin, splitSlash_append,
      splitSlash_no_slash p (h p (List.mem_cons_self p _)),
      ih q (fun r hr => h r (List.mem_cons_of_mem p hr))]
    rfl

/-- Helper: members of the rooted clean stack are non-empty, slash-free and
not `..`. -/
theorem absParts_mem (s : List Char) (q : List Char) (hq : q ∈ absParts s) :
    q ≠ [] ∧ q ≠ ['.'] ∧ q ≠ ['.', '.'] ∧ '/' ∉ q := by
  rcases cleanStep_fold_mem true (splitSlash s) [] q hq with h | h | h
  · simp at h
  · exact ⟨h.2.1, h.2.2.1, h.2.2.2, splitSlash_mem_no_slash s q h.1⟩
  · simp at h

/-- Helper: re-parsing the string `Clean` builds from a rooted stack gives
back the stack. -/
theorem absParts_root_join (out : List (List Char))
    (hmem : ∀ q ∈ out, q ≠ [] ∧ q ≠ ['.'] ∧ q ≠ ['.', '.'] ∧ '/' ∉ q) :
    absParts ('/' :: joinSlash out) = out := by
  cases out with
  | nil =>
    simp [absParts, joinSlash, splitSlash, cleanParts, cleanStep]
  | cons p out2 =>
    rw [absParts, splitSlash_cons_slash,
      splitSlash_joinSlash out2 p (fun r hr => (hmem r hr).2.2.2)]
    unfold cleanParts
    rw [List.foldl_cons]
    have hstep : cleanStep true [] [] = [] := by
      simp [cleanStep]
    rw [hstep, cleanStep_fold_no_pops true (p :: out2) []
      (fun q hq => (hmem q hq).2.2.1)]
    rw [List.nil_append]
    apply List.filter_eq_self.mpr
    intro q hq
    have hx := hmem q hq
    simp [hx.1, hx.2.1]

/-- Helper: the clean stack of `Clean` applied to a rooted path is the
clean stack of the path itself. -/
theorem absParts_cleanPath (s : List Char) (hroot : s.head? = some '/') :
    absParts (cleanPath s) = absParts s := by
  have hne : ¬(s = []) := by
    intro h
    rw [h] at hroot
    simp at hroot
  have hr : decide (s.head? = some '/') = true := decide_eq_true hroot
  rw [cleanPath, if_neg hne]
  simp only [hr, if_true]
  rw [absParts_root_join (cleanParts true (splitSlash s))
    (fun q hq => absParts_mem s q hq)]
  rfl

/-- C7 counterexample: the key `.` sanitizes successfully to the base
directory itself — which is not strictly within the base directory — so
"either the cleaned key resolves to an absolute path strictly within the
configured base directory, or the operation fails with a validation error
before touching the filesystem" is false as stated: `Exists`/`List`/`Get`
on key `.` proceed to touch the base directory path itself. -/
theorem C7_counterexample :
    localStoreTarget "/data".toList ".".toList = Except.ok "/data".toList
  ∧ ¬ strictlyWithinBase "/data".toList "/data".toList := by
  constructor
  · rfl
  · exact fun h => h.2 rfl

/-- C7 (amended): for every key, either `sanitizeKey` fails with a
validation error — and then every `LocalStore` operation returns that error
before touching the filesystem — or it resolves the key to an absolute path
whose component list extends the base directory's components with traversal-
free components: the path is within the base directory (possibly the base
directory itself, e.g. for the key `.`), and no operation ever touches a
path outside it. The base directory is `filepath.Abs`-resolved, hence
rooted. -/
theorem C7_sanitize_key_containment (base key : List Char)
    (hroot : base.head? = some '/') :
    (∀ e, sanitizeKey base key = Except.error e →
      localStoreTarget base key = Except.error e)
  ∧ (∀ full, sanitizeKey base key = Except.ok full →
      ∃ rest, absParts full = absParts base ++ rest ∧ ['.', '.'] ∉ rest) := by
  constructor
  · intro e he
    exact he
  · intro full hfull
    have heq : sanitizeKey base key =
        if containsDotDot (cleanPath key) = true then
          Except.error "path traversal not allowed"
        else if (!decide (base <+: joinPath base (cleanPath key))) = true then
          Except.error "resolves outside base directory"
        else Except.ok (joinPath base (cleanPath key)) := rfl
    rw [heq] at hfull
    split at hfull
    · exact absurd hfull (by simp)
    · rename_i hdd
      split at hfull
      · exact absurd hfull (by simp)
      · rename_i hpre
        injection hfull with hfull
        have hbase_root : (base ++ '/' :: cleanPath key).head? = some '/' := by
          cases base with
          | nil => simp at hroot
          | cons c b2 =>
            simp at hroot
            simp [hroot]
        have h1 : absParts full =
            absParts (base ++ '/' :: cleanPath key) := by
          rw [← hfull]
          exact absParts_cleanPath (base ++ '/' :: cleanPath key) hbase_root
        have h2 : absParts (base ++ '/' :: cleanPath key) =
            (splitSlash (cleanPath key)).foldl (cleanStep true) (absParts base) := by
          unfold absParts
          rw [splitSlash_append]
          unfold cleanParts
          rw [List.foldl_append]
        have h3 : ∀ p ∈ splitSlash (cleanPath key), p ≠ ['.', '.'] := by
          intro p hp hdot
          apply hdd
          apply decide_eq_true
          rw [← hdot]
          exact splitSlash_mem_infix (cleanPath key) p hp
        rw [h1, h2, cleanStep_fold_no_pops true (splitSlash (cleanPath key))
          (absParts base) h3]
        refine ⟨_, rfl, ?_⟩
        intro hmem
        exact h3 _ (List.mem_of_mem_filter hmem) rfl

/-- C7 witness: the base `/data` with the ordinary key `test/data.txt`
resolves to `/data/test/data.txt`, whose components extend the base's with
no `..`; the traversal keys from the repository's own test
(`../etc/passwd`) fail with the validation error. -/
theorem C7_sanitize_witness :
    sanitizeKey "/data".toList "test/data.txt".toList =
      Except.ok "/data/test/data.txt".toList
  ∧ (∃ rest, absParts "/data/test/data.txt".toList =
      absParts "/data".toList ++ rest ∧ ['.', '.'] ∉ rest)
  ∧ sanitizeKey "/data".toList "../etc/passwd".toList =
      Except.error "path traversal not allowed"
  ∧ sanitizeKey "/data".toList "foo/../../etc/shadow".toList =
      Except.error "path traversal not allowed" := by
  refine ⟨rfl, ?_, rfl, rfl⟩
  exact (C7_sanitize_key_containment "/data".toList "test/data.txt".toList rfl).2
    "/data/test/data.txt".toList rfl

/-- Helper: skipping unparseable lines first is the same as folding over
the parsed facts. -/
theorem foldl_processLine_filterMap (dayNum : Nat) :
    ∀ (l : List (Option RequestFact)) (st : DayState),
      l.foldl (processLine dayNum) st =
        (l.filterMap id).foldl (processFact dayNum) st := by
  intro l
  induction l with
  | nil => intro st; rfl
  | cons o rest ih =>
    intro st
    cases o with
    | none => simp [processLine, ih]
    | some f => simp [processLine, ih]

/-- Helper: the scan fold's aggregation map is the plain aggregation fold
over the day-filtered, first-occurrence-deduplicated fact list (the dedup
set is consulted before the day filter, exactly as in the loop body). -/
theorem foldl_processFact_aggs (dayNum : Nat) :
    ∀ (l : List RequestFact) (seen : List String)
      (aggs : List (AggregationKey × Aggregator)),
      (l.foldl (processFact dayNum) ⟨seen, aggs⟩).aggs =
        (filterDay dayNum (dedupByAux (fun f => f.eventId) seen l)).foldl
          addFact aggs := by
  intro l
  induction l with
  | nil => intro seen aggs; rfl
  | cons f rest ih =>
    intro seen aggs
    rw [List.foldl_cons, dedupByAux]
    by_cases hmem : f.eventId ∈ seen
    · rw [if_pos hmem]
      have hstep : processFact dayNum ⟨seen, aggs⟩ f = ⟨seen, aggs⟩ := by
        unfold processFact
        simp [hmem]
      rw [hstep, ih seen aggs]
    · rw [if_neg hmem]
      by_cases hday : dayOf f.eventTime = dayNum
      · have hstep : processFact dayNum ⟨seen, aggs⟩ f =
            ⟨f.eventId :: seen, addFact aggs f⟩ := by
          unfold processFact
          simp [hmem, hday]
        rw [hstep, ih (f.eventId :: seen) (addFact aggs f)]
        have hfd : filterDay dayNum
            (f :: dedupByAux (fun g => g.eventId) (f.eventId :: seen) rest) =
            f :: filterDay dayNum
              (dedupByAux (fun g => g.eventId) (f.eventId :: seen) rest) := by
          unfold filterDay
          rw [List.filter_cons, if_pos (by simpa using hday)]
        rw [hfd, List.foldl_cons]
      · have hstep : processFact dayNum ⟨seen, aggs⟩ f =
            ⟨f.eventId :: seen, aggs⟩ := by
          unfold processFact
          simp [hmem, hday]
        rw [hstep, ih (f.eventId :: seen) aggs]
        have hfd : filterDay dayNum
            (f :: dedupByAux (fun g => g.eventId) (f.eventId :: seen) rest) =
            filterDay dayNum
              (dedupByAux (fun g => g.eventId) (f.eventId :: seen) rest) := by
          unfold filterDay
          rw [List.filter_cons, if_neg (by simpa using hday)]
        rw [hfd]

/-- Helper: the keys claimed by the dedup pass are the unclaimed keys of
the input. -/
theorem mem_map_key_dedupByAux {α β : Type} [DecidableEq β] (key : α → β) :
    ∀ (l : List α) (seen : List β) (b : β),
      b ∈ (dedupByAux key seen l).map key ↔ b ∉ seen ∧ b ∈ l.map key := by
  intro l
  induction l with
  | nil => intro seen b; simp [dedupByAux]
  | cons a rest ih =>
    intro seen b
    rw [dedupByAux]
    by_cases hmem : key a ∈ seen
    · rw [if_pos hmem, ih]
      constructor
      · rintro ⟨h1, h2⟩
        exact ⟨h1, List.mem_cons_of_mem _ h2⟩
      · rintro ⟨h1, h2⟩
        rcases List.mem_cons.mp h2 with h3 | h3
        · subst h3
          exact absurd hmem h1
        · exact ⟨h1, h3⟩
    · rw [if_neg hmem]
      simp only [List.map_cons, List.mem_cons, ih]
      constructor
      · rintro (h1 | ⟨h1, h2⟩)
        · subst h1
          exact ⟨hmem, Or.inl rfl⟩
        · refine ⟨fun h3 => h1 (Or.inr h3), Or.inr h2⟩
      · rintro ⟨h1, h2 | h2⟩
        · exact Or.inl h2
        · by_cases h3 : b = key a
          · exact Or.inl h3
          · refine Or.inr ⟨?_, h2⟩
            intro h4
            rcases h4 with h5 | h5
            · exact h3 h5
            · exact h1 h5

/-- Helper: the dedup pass claims each key at most once. -/
theorem nodup_map_key_dedupByAux {α β : Type} [DecidableEq β] (key : α → β) :
    ∀ (l : List α) (seen : List β), ((dedupByAux key seen l).map key).Nodup := by
  intro l
  induction l with
  | nil => intro seen; simp [dedupByAux]
  | cons a rest ih =>
    intro seen
    rw [dedupByAux]
    by_cases hmem : key a ∈ seen
    · rw [if_pos hmem]
      exact ih seen
    · rw [if_neg hmem]
      rw [List.map_cons, List.nodup_cons]
      refine ⟨?_, ih (key a :: seen)⟩
      intro h
      exact ((mem_map_key_dedupByAux key rest (key a :: seen) (key a)).mp h).1
        (List.mem_cons_self ..)

/-- Helper: the dedup pass returns a subset of its input. -/
theorem dedupByAux_subset {α β : Type} [DecidableEq β] (key : α → β) :
    ∀ (l : List α) (seen : List β) (a : α), a ∈ dedupByAux key seen l → a ∈ l := by
  intro l
  induction l with
  | nil => intro seen a h; simp [dedupByAux] at h
  | cons b rest ih =>
    intro seen a h
    rw [dedupByAux] at h
    by_cases hmem : key b ∈ seen
    · rw [if_pos hmem] at h
      exact List.mem_cons_of_mem b (ih seen a h)
    · rw [if_neg hmem] at h
      rcases List.mem_cons.mp h with h1 | h1
      · exact h1 ▸ List.mem_cons_self ..
      · exact List.mem_cons_of_mem b (ih (key b :: seen) a h1)

/-- Helper: when the key determines the record, the dedup pass keeps
exactly the records of the input. -/
theorem mem_dedupBy_of_inj {α β : Type} [DecidableEq β] (key : α → β)
    (l : List α) (hinj : ∀ a ∈ l, ∀ b ∈ l, key a = key b → a = b) (a : α) :
    a ∈ dedupBy key l ↔ a ∈ l := by
  constructor
  · exact dedupByAux_subset key l [] a
  · intro h
    have hk : key a ∈ (dedupByAux key [] l).map key := by
      rw [mem_map_key_dedupByAux]
      exact ⟨by simp, List.mem_map_of_mem key h⟩
    rcases List.mem_map.mp hk with ⟨g, hg1, hg2⟩
    have := hinj g (dedupByAux_subset key l [] g hg1) a h hg2
    exact this ▸ hg1

/-- Helper: the dedup output has no duplicate records. -/
theorem nodup_dedupBy {α β : Type} [DecidableEq β] (key : α → β) (l : List α) :
    (dedupBy key l).Nodup := by
  exact (nodup_map_key_dedupByAux key l []).of_map key

/-- Helper: under key-injectivity, permuted inputs dedup to permuted
outputs. -/
theorem dedupBy_perm {α β : Type} [DecidableEq β] (key : α → β)
    (l₁ l₂ : List α) (hperm : l₁.Perm l₂)
    (hinj : ∀ a ∈ l₁, ∀ b ∈ l₁, key a = key b → a = b) :
    (dedupBy key l₁).Perm (dedupBy key l₂) := by
  have hinj2 : ∀ a ∈ l₂, ∀ b ∈ l₂, key a = key b → a = b := by
    intro a ha b hb
    exact hinj a (hperm.mem_iff.mpr ha) b (hperm.mem_iff.mpr hb)
  rw [List.perm_ext_iff_of_nodup (nodup_dedupBy key l₁) (nodup_dedupBy key l₂)]
  intro a
  rw [mem_dedupBy_of_inj key l₁ hinj, mem_dedupBy_of_inj key l₂ hinj2]
  exact hperm.mem_iff

/-- Helper: adding one fact to the tail of the scan bumps exactly its
group. -/
theorem aggValue_append (fl : List RequestFact) (f : RequestFact)
    (k : AggregationKey) :
    aggValue (fl ++ [f]) k =
      if k = keyOf f then bumpAgg (aggValue fl k) f else aggValue fl k := by
  have hgrp : groupFacts (fl ++ [f]) k =
      groupFacts fl k ++ if keyOf f = k then [f] else [] := by
    unfold groupFacts
    rw [List.filter_append]
    congr 1
    rw [List.filter_cons]
    split <;> rename_i h <;> simp at h <;> simp [h]
  by_cases hk : k = keyOf f
  · rw [if_pos hk]
    unfold aggValue bumpAgg
    rw [hgrp, if_pos hk.symm]
    simp only [List.map_append, List.length_append, List.filter_append,
      Aggregator.mk.injEq]
    refine ⟨by simp, by simp [List.length_cons], ?_⟩
    rw [List.filter_cons]
    by_cases herr : f.statusCode ≥ 500
    · rw [if_pos (by simpa using herr), if_pos herr]
      simp only [List.filter_nil, List.length_cons, List.length_nil]
      push_cast
      ring
    · rw [if_neg (by simpa using herr), if_neg herr]
      simp
  · rw [if_neg hk]
    unfold aggValue
    rw [hgrp, if_neg (fun h => hk h.symm)]
    simp

/-- Helper: dedup of a snoc keeps the new element iff its key is fresh. -/
theorem dedupByAux_append_singleton {α β : Type} [DecidableEq β] (key : α → β) :
    ∀ (xs : List α) (seen : List β) (x : α),
      dedupByAux key seen (xs ++ [x]) =
        if key x ∈ seen ∨ key x ∈ xs.map key then dedupByAux key seen xs
        else dedupByAux key seen xs ++ [x] := by
  intro xs
  induction xs with
  | nil =>
    intro seen x
    by_cases h : key x ∈ seen <;> simp [dedupByAux, h]
  | cons a rest ih =>
    intro seen x
    rw [List.cons_append, dedupByAux, dedupByAux]
    by_cases hmem : key a ∈ seen
    · rw [if_pos hmem, ih seen x]
      by_cases hx : key x ∈ seen ∨ key x ∈ rest.map key
      · rw [if_pos hx]
        have hx2 : key x ∈ seen ∨ key x ∈ (a :: rest).map key := by
          rcases hx with h | h
          · exact Or.inl h
          · exact Or.inr (by simp [h])
        rw [if_pos hx2, if_pos hmem]
      · have hx2 : ¬(key x ∈ seen ∨ key x ∈ (a :: rest).map key) := by
          intro h
          rcases h with h | h
          · exact hx (Or.inl h)
          · rcases List.mem_cons.mp (by simpa using h :
                key x ∈ key a :: rest.map key) with h2 | h2
            · exact hx (Or.inl (h2 ▸ hmem))
            · exact hx (Or.inr h2)
        rw [if_neg hx, if_neg hx2, if_pos hmem]
    · rw [if_neg hmem, ih (key a :: seen) x]
      by_cases hx : key x ∈ key a :: seen ∨ key x ∈ rest.map key
      · rw [if_pos hx]
        have hx2 : key x ∈ seen ∨ key x ∈ (a :: rest).map key := by
          rcases hx with h | h
          · rcases List.mem_cons.mp h with h2 | h2
            · exact Or.inr (by simp [h2])
            · exact Or.inl h2
          · exact Or.inr (by simp [h])
        rw [if_pos hx2, if_neg hmem]
      · have hx2 : ¬(key x ∈ seen ∨ key x ∈ (a :: rest).map key) := by
          intro h
          rcases h with h | h
          · exact hx (Or.inl (List.mem_cons_of_mem _ h))
          · rcases List.mem_cons.mp (by simpa using h :
                key x ∈ key a :: rest.map key) with h2 | h2
            · exact hx (Or.inl (by simp [h2]))
            · exact hx (Or.inr h2)
        rw [if_neg hx, if_neg hx2, if_neg hmem]
        rfl

/-- Helper: `addFact` on an association list presented as a map over
distinct keys updates exactly the fact's group (or appends a fresh one). -/
theorem addFact_map_form :
    ∀ (ks : List AggregationKey) (v : AggregationKey → Aggregator)
      (f : RequestFact), ks.Nodup →
      addFact (ks.map fun k => (k, v k)) f =
        (if keyOf f ∈ ks then
          ks.map fun k => (k, if k = keyOf f then bumpAgg (v k) f else v k)
        else (ks.map fun k => (k, v k)) ++ [(keyOf f, bumpAgg ⟨[], 0, 0⟩ f)]) := by
  intro ks
  induction ks with
  | nil =>
    intro v f _
    simp [addFact]
  | cons k0 ks2 ih =>
    intro v f hnd
    rw [List.map_cons]
    rw [show addFact ((k0, v k0) :: ks2.map fun k => (k, v k)) f =
        if k0 = keyOf f then (k0, bumpAgg (v k0) f) :: ks2.map (fun k => (k, v k))
        else (k0, v k0) :: addFact (ks2.map fun k => (k, v k)) f from rfl]
    by_cases hk : k0 = keyOf f
    · rw [if_pos hk, if_pos (hk ▸ List.mem_cons_self ..), List.map_cons, if_pos hk]
      congr 1
      apply List.map_congr_left
      intro k hk2
      have hne : ¬(k = keyOf f) := by
        intro h
        have hk0 : k0 ∈ ks2 := by
          rw [hk, ← h]
          exact hk2
        exact (List.nodup_cons.mp hnd).1 hk0
      rw [if_neg hne]
    · rw [if_neg hk, ih v f (List.nodup_cons.mp hnd).2]
      by_cases hmem : keyOf f ∈ ks2
      · rw [if_pos hmem, if_pos (List.mem_cons_of_mem k0 hmem), List.map_cons,
          if_neg hk]
      · rw [if_neg hmem, if_neg (by
          intro h
          rcases List.mem_cons.mp h with h1 | h1
          · exact hk h1.symm
          · exact hmem h1)]
        simp

/-- Helper: a key absent from the scan has the empty group. -/
theorem groupFacts_nil_of_not_mem (fl : List RequestFact) (k : AggregationKey)
    (h : k ∉ fl.map keyOf) : groupFacts fl k = [] := by
  unfold groupFacts
  rw [List.filter_eq_nil_iff]
  intro g hg
  simp only [decide_eq_true_eq]
  intro hkey
  exact h (hkey ▸ List.mem_map_of_mem keyOf hg)

/-- Helper: the aggregation fold is the map, over the first-occurrence
key list, of the directly described group aggregates. -/
theorem foldl_addFact_char (fl : List RequestFact) :
    fl.foldl addFact [] =
      (dedupBy id (fl.map keyOf)).map fun k => (k, aggValue fl k) := by
  induction fl using List.reverseRecOn with
  | nil => simp [dedupBy, dedupByAux]
  | append_singleton fl f ih =>
    rw [List.foldl_append, List.foldl_cons, List.foldl_nil, ih,
      addFact_map_form (dedupBy id (fl.map keyOf)) (fun k => aggValue fl k) f
        (nodup_dedupBy id _)]
    have hkeys : dedupBy id ((fl ++ [f]).map keyOf) =
        (if keyOf f ∈ fl.map keyOf then dedupBy id (fl.map keyOf)
         else dedupBy id (fl.map keyOf) ++ [keyOf f]) := by
      unfold dedupBy
      rw [List.map_append, show List.map keyOf [f] = [keyOf f] from rfl,
        dedupByAux_append_singleton id (fl.map keyOf) [] (keyOf f)]
      simp
    by_cases hmem : keyOf f ∈ fl.map keyOf
    · have hmem2 : keyOf f ∈ dedupBy id (fl.map keyOf) := by
        rw [mem_dedupBy_of_inj id _ (fun a _ b _ h => h)]
        exact hmem
      rw [if_pos hmem2, hkeys, if_pos hmem]
      apply List.map_congr_left
      intro k hk
      rw [aggValue_append]
    · have hmem2 : ¬(keyOf f ∈ dedupBy id (fl.map keyOf)) := by
        rw [mem_dedupBy_of_inj id _ (fun a _ b _ h => h)]
        exact hmem
      rw [if_neg hmem2, hkeys, if_neg hmem, List.map_append]
      congr 1
      · apply List.map_congr_left
        intro k hk
        rw [aggValue_append, if_neg]
        intro h2
        exact hmem2 (h2 ▸ hk)
      · rw [List.map_cons, List.map_nil]
        have hnil : aggValue fl (keyOf f) = ⟨[], 0, 0⟩ := by
          unfold aggValue
          rw [groupFacts_nil_of_not_mem fl (keyOf f) hmem]
          rfl
        rw [aggValue_append, if_pos rfl, hnil]

/-- Helper: the Percentile of a latency vector depends only on its
multiset (the implementation sorts a copy first). -/
theorem percentileGo_perm (l₁ l₂ : List ℚ) (h : l₁.Perm l₂) (p : ℚ) :
    percentileGo l₁ p = percentileGo l₂ p := by
  have hlen := h.length_eq
  unfold percentileGo
  rw [hlen]
  by_cases h0 : l₂.length = 0
  · simp [h0]
  · rw [if_neg h0, if_neg h0]
    by_cases h1 : l₂.length = 1
    · rw [if_pos h1, if_pos h1]
      have heq : l₁ = l₂ := by
        rcases List.length_eq_one.mp h1 with ⟨a, ha⟩
        rw [ha] at h ⊢
        exact List.perm_singleton.mp h
      rw [heq]
    · rw [if_neg h1, if_neg h1]
      have hsort : l₁.insertionSort (· ≤ ·) = l₂.insertionSort (· ≤ ·) :=
        List.eq_of_perm_of_sorted
          ((List.perm_insertionSort _ l₁).trans
            (h.trans (List.perm_insertionSort _ l₂).symm))
          (List.sorted_insertionSort _ l₁) (List.sorted_insertionSort _ l₂)
      rw [hsort]

/-- Helper: the finalized row of a group is invariant under permuting the
scanned facts. -/
theorem rowOf_aggValue_perm (d : Nat) (k : AggregationKey)
    (fl₁ fl₂ : List RequestFact) (h : fl₁.Perm fl₂) :
    rowOf d k (aggValue fl₁ k) = rowOf d k (aggValue fl₂ k) := by
  have hgrp : (groupFacts fl₁ k).Perm (groupFacts fl₂ k) := h.filter _
  have hlat : ((groupFacts fl₁ k).map fun f => (f.latencyMs : ℚ)).Perm
      ((groupFacts fl₂ k).map fun f => (f.latencyMs : ℚ)) := hgrp.map _
  have hreq : (groupFacts fl₁ k).length = (groupFacts fl₂ k).length :=
    hgrp.length_eq
  have herr : ((groupFacts fl₁ k).filter fun f => decide (f.statusCode ≥ 500)).length
      = ((groupFacts fl₂ k).filter fun f => decide (f.statusCode ≥ 500)).length :=
    (hgrp.filter _).length_eq
  unfold rowOf aggValue
  simp only [hreq, herr, percentileGo_perm _ _ hlat]

/-- Helper: the aggregation map built by one scan, characterized from the
flattened line list. -/
theorem scan_aggs_char (dayNum : Nat) (blobs : List (List (Option RequestFact))) :
    (blobs.flatten.foldl (processLine dayNum) ⟨[], []⟩).aggs =
      (dedupBy id ((filterDay dayNum (dedupBy (fun f => f.eventId)
          (blobs.flatten.filterMap id))).map keyOf)).map
        fun k => (k, aggValue (filterDay dayNum (dedupBy (fun f => f.eventId)
          (blobs.flatten.filterMap id))) k) := by
  rw [foldl_processLine_filterMap, foldl_processFact_aggs dayNum _ [] []]
  exact foldl_addFact_char _

/-- C4 counterexample: two runs over the same two raw records — a pair with
the same `event_id` but different `status_code` (a conflicting duplicate) —
with the blobs enumerated in opposite orders. The flattened inputs are
permutations of each other (the same set of records), yet one run keeps the
200 record (error_count 0) and the other the 500 record (error_count 1):
first occurrence wins, so the output is not a pure function of the set of
records. -/
theorem C4_counterexample :
    (([[some ⟨"dup", 0, "s", "GET", "/x", 200, 10⟩],
       [some ⟨"dup", 0, "s", "GET", "/x", 500, 10⟩]] :
        List (List (Option RequestFact))).flatten).Perm
      (([[some ⟨"dup", 0, "s", "GET", "/x", 500, 10⟩],
         [some ⟨"dup", 0, "s", "GET", "/x", 200, 10⟩]] :
        List (List (Option RequestFact))).flatten)
  ∧ ((processDayRows 0 [[some ⟨"dup", 0, "s", "GET", "/x", 200, 10⟩],
        [some ⟨"dup", 0, "s", "GET", "/x", 500, 10⟩]]).headD
      ⟨0, "", "", "", 0, 0, 0, 0, 0, 0, 0⟩).errorCount = 0
  ∧ ((processDayRows 0 [[some ⟨"dup", 0, "s", "GET", "/x", 500, 10⟩],
        [some ⟨"dup", 0, "s", "GET", "/x", 200, 10⟩]]).headD
      ⟨0, "", "", "", 0, 0, 0, 0, 0, 0, 0⟩).errorCount = 1 := by
  refine ⟨by decide, by decide, by decide⟩

/-- C4 (amended): for a fixed target day, when no two distinct raw records
share an `event_id` (duplicates are exact copies), the rows produced by the
metrics rollup are a pure function of the multiset of records: two runs
whose flattened inputs are permutations of each other — any blob
enumeration order, any placement of duplicates — produce the same rows up
to reordering of rows that tie on the `(bucket_start, service)` sort key
(the code sorts only by that pair; rows for the same set of records and the
idx of the blob name aside, the outputs are permutations of each other).
With conflicting payloads under one `event_id`, the first record enumerated
wins and the output can differ (see the counterexample). -/
theorem C4_rows_pure_function_of_records (dayNum : Nat)
    (blobs₁ blobs₂ : List (List (Option RequestFact)))
    (hperm : blobs₁.flatten.Perm blobs₂.flatten)
    (hinj : ∀ f ∈ blobs₁.flatten.filterMap id, ∀ g ∈ blobs₁.flatten.filterMap id,
      f.eventId = g.eventId → f = g) :
    (processDayRows dayNum blobs₁).Perm (processDayRows dayNum blobs₂) := by
  have hp : (blobs₁.flatten.filterMap id).Perm (blobs₂.flatten.filterMap id) :=
    hperm.filterMap id
  have hdperm : (filterDay dayNum (dedupBy (fun f => f.eventId)
      (blobs₁.flatten.filterMap id))).Perm
      (filterDay dayNum (dedupBy (fun f => f.eventId)
        (blobs₂.flatten.filterMap id))) := by
    unfold filterDay
    exact (dedupBy_perm (fun f => f.eventId) _ _ hp hinj).filter _
  have hkperm : (dedupBy id ((filterDay dayNum (dedupBy (fun f => f.eventId)
      (blobs₁.flatten.filterMap id))).map keyOf)).Perm
      (dedupBy id ((filterDay dayNum (dedupBy (fun f => f.eventId)
        (blobs₂.flatten.filterMap id))).map keyOf)) :=
    dedupBy_perm id _ _ (hdperm.map keyOf) (fun a _ b _ h => h)
  unfold processDayRows
  refine ((List.perm_insertionSort _ _).trans ?_).trans
    (List.perm_insertionSort _ _).symm
  rw [scan_aggs_char dayNum blobs₁, scan_aggs_char dayNum blobs₂,
    List.map_map, List.map_map]
  refine (hkperm.map _).trans ?_
  apply List.Perm.of_eq
  apply List.map_congr_left
  intro k hk
  simp only [Function.comp]
  exact rowOf_aggValue_perm dayNum k _ _ hdperm

/-- C4 witness: two runs over the same two distinct-id records with the
blobs enumerated in opposite orders produce the same rows up to order. -/
theorem C4_rows_witness :
    ((([[some ⟨"a", 60, "s", "GET", "/x", 500, 30⟩],
        [some ⟨"b", 0, "t", "POST", "/y", 200, 5⟩]] :
         List (List (Option RequestFact))).flatten).Perm
      (([[some ⟨"b", 0, "t", "POST", "/y", 200, 5⟩],
         [some ⟨"a", 60, "s", "GET", "/x", 500, 30⟩]] :
         List (List (Option RequestFact))).flatten))
  ∧ (processDayRows 0 [[some ⟨"a", 60, "s", "GET", "/x", 500, 30⟩],
        [some ⟨"b", 0, "t", "POST", "/y", 200, 5⟩]]).Perm
      (processDayRows 0 [[some ⟨"b", 0, "t", "POST", "/y", 200, 5⟩],
        [some ⟨"a", 60, "s", "GET", "/x", 500, 30⟩]]) := by
  refine ⟨by decide, ?_⟩
  exact C4_rows_pure_function_of_records 0
    [[some ⟨"a", 60, "s", "GET", "/x", 500, 30⟩],
     [some ⟨"b", 0, "t", "POST", "/y", 200, 5⟩]]
    [[some ⟨"b", 0, "t", "POST", "/y", 200, 5⟩],
     [some ⟨"a", 60, "s", "GET", "/x", 500, 30⟩]]
    (by decide) (by decide)

end Gravix
